import Mathlib

/-!
Verification development for the beta-plays repository.

The JavaScript source is shallowly embedded: JS numbers are modelled as
rationals (ℚ), timestamps as rationals (milliseconds), JS strings as
Lean strings.  A JS field that may be `undefined`/`null` and is only ever
read through a falsy-coalescing pattern (`x.f || 0`, `x.f || now`,
`x.f || ''`) is modelled by its falsy default (0 resp. ""), which is
observationally equivalent; fields where `null` is distinguishable from
`0`/`''` (e.g. `ageMs !== null`, `mcapRatio`) are modelled with `Option`.
JS objects persisted in localStorage are modelled as insertion-ordered
association lists, matching the iteration order of plain JS objects and
of `Map`.
-/

namespace BetaPlays

/-- JS falsy-or on numbers: `a || b` where `a` is a number (0 is falsy). -/
def jsOr (a b : ℚ) : ℚ := if a = 0 then b else a

/-- JS falsy-or on strings: `a || b` where `a` is a string ("" is falsy). -/
def jsOrS (a b : String) : String := if a = "" then b else a

/-- JS `Math.round`: round half towards positive infinity. -/
def jsRound (x : ℚ) : Int := ⌊x + 1/2⌋

/-- JS `Math.trunc`-style truncation towards zero (used by the `%` operator). -/
def jsTrunc (x : ℚ) : Int := if 0 ≤ x then ⌊x⌋ else -⌊-x⌋

/-- JS `%` on numbers: `a % b = a - b * trunc(a / b)`. -/
def jsMod (a b : ℚ) : ℚ := a - b * (jsTrunc (a / b) : ℤ)

/-- JS `toUpperCase` (ASCII), as a structural map over the characters. -/
def jsToUpper (s : String) : String := String.mk (s.data.map Char.toUpper)

/-- JS `toLowerCase` (ASCII), as a structural map over the characters. -/
def jsToLower (s : String) : String := String.mk (s.data.map Char.toLower)

/-- JS `a.startsWith(b)`. -/
def strStartsWith (a b : String) : Bool := b.data.isPrefixOf a.data

/-- Split a character list at every separator character (JS
`String.prototype.split`; empty pieces appear between adjacent
separators, as with a non-collapsing pattern). -/
def splitChars (p : Char → Bool) : List Char → List (List Char)
  | [] => [[]]
  | c :: rest =>
    match splitChars p rest with
    | [] => [[]]
    | w :: ws => if p c then [] :: w :: ws else (c :: w) :: ws

/-- JS `s.split(sep)` with a character-class separator. -/
def strSplit (s : String) (p : Char → Bool) : List String :=
  (splitChars p s.data).map String.mk

/-- First-occurrence-preserving insertion, the building block of JS `Set`
iteration order. -/
def insertUniq (l : List String) (x : String) : List String :=
  if x ∈ l then l else l ++ [x]

/-- JS `[...new Set(l)]`: deduplicate keeping first occurrences in order. -/
def jsSetDedup (l : List String) : List String := l.foldl insertUniq []

theorem foldl_insertUniq_of_subset (l acc : List String)
    (h : ∀ x ∈ l, x ∈ acc) : l.foldl insertUniq acc = acc := by
  induction l generalizing acc with
  | nil => rfl
  | cons a t ih =>
    have ha : a ∈ acc := h a (List.mem_cons_self a t)
    simp only [List.foldl_cons, insertUniq, if_pos ha]
    exact ih acc (fun x hx => h x (List.mem_cons_of_mem a hx))

theorem foldl_insertUniq_nodup_disjoint (l : List String) :
    ∀ acc : List String, l.Nodup → (∀ x ∈ l, x ∉ acc) →
      l.foldl insertUniq acc = acc ++ l := by
  induction l with
  | nil => intro acc _ _; simp
  | cons a t ih =>
    intro acc hnd hdisj
    have ha : a ∉ acc := hdisj a (List.mem_cons_self a t)
    simp only [List.foldl_cons, insertUniq, if_neg ha]
    have hnd' : t.Nodup := (List.nodup_cons.mp hnd).2
    have hat : a ∉ t := (List.nodup_cons.mp hnd).1
    have : t.foldl insertUniq (acc ++ [a]) = (acc ++ [a]) ++ t := by
      refine ih (acc ++ [a]) hnd' ?_
      intro x hx
      simp only [List.mem_append, List.mem_singleton]
      rintro (h1 | h2)
      · exact hdisj x (List.mem_cons_of_mem a hx) h1
      · exact hat (h2 ▸ hx)
    rw [this, List.append_assoc]
    rfl

theorem jsSetDedup_of_nodup (l : List String) (h : l.Nodup) :
    jsSetDedup l = l := by
  have := foldl_insertUniq_nodup_disjoint l [] h (by simp)
  simpa [jsSetDedup] using this

theorem jsSetDedup_append_subset (a b : List String) (hnd : a.Nodup)
    (hsub : ∀ x ∈ b, x ∈ a) : jsSetDedup (a ++ b) = a := by
  have h1 : jsSetDedup (a ++ b) = b.foldl insertUniq (a.foldl insertUniq []) := by
    simp [jsSetDedup, List.foldl_append]
  rw [h1]
  have h2 : a.foldl insertUniq [] = a := jsSetDedup_of_nodup a hnd
  rw [h2]
  exact foldl_insertUniq_of_subset b a hsub

theorem mem_insertUniq (l : List String) (x y : String) :
    y ∈ insertUniq l x ↔ y ∈ l ∨ y = x := by
  unfold insertUniq
  by_cases h : x ∈ l
  · simp only [if_pos h]
    constructor
    · exact Or.inl
    · rintro (h1 | rfl)
      · exact h1
      · exact h
  · simp [if_neg h]

theorem nodup_foldl_insertUniq (l : List String) :
    ∀ acc : List String, acc.Nodup → (l.foldl insertUniq acc).Nodup := by
  induction l with
  | nil => intro acc h; exact h
  | cons a t ih =>
    intro acc h
    simp only [List.foldl_cons]
    apply ih
    unfold insertUniq
    by_cases ha : a ∈ acc
    · simpa [if_pos ha]
    · rw [if_neg ha]
      simpa [List.nodup_append] using ⟨h, ha⟩

theorem jsSetDedup_nodup (l : List String) : (jsSetDedup l).Nodup :=
  nodup_foldl_insertUniq l [] List.nodup_nil

theorem mem_foldl_insertUniq (l : List String) :
    ∀ acc y, y ∈ l.foldl insertUniq acc ↔ y ∈ acc ∨ y ∈ l := by
  induction l with
  | nil => intro acc y; simp
  | cons a t ih =>
    intro acc y
    simp only [List.foldl_cons]
    rw [ih]
    rw [mem_insertUniq]
    simp only [List.mem_cons]
    tauto

theorem mem_jsSetDedup (l : List String) (y : String) :
    y ∈ jsSetDedup l ↔ y ∈ l := by
  unfold jsSetDedup
  rw [mem_foldl_insertUniq]
  simp

/-! ### Insertion-ordered association lists (JS objects / Maps) -/

/-- Lookup in an insertion-ordered association list (first match). -/
def lookupA {β : Type} : List (String × β) → String → Option β
  | [], _ => none
  | (k', v) :: m, k => if k' = k then some v else lookupA m k

/-- Update the value at a key in place (first match), keeping order. -/
def updateA {β : Type} : List (String × β) → String → (β → β) → List (String × β)
  | [], _, _ => []
  | (k', v) :: m, k, f => if k' = k then (k', f v) :: m else (k', v) :: updateA m k f

/-- JS `obj[k] = v` / `Map.set`: update existing key in place, else append. -/
def upsertA {β : Type} (m : List (String × β)) (k : String) (v : β) :
    List (String × β) :=
  match lookupA m k with
  | some _ => updateA m k (fun _ => v)
  | none => m ++ [(k, v)]

theorem updateA_id {β : Type} (m : List (String × β)) (k : String)
    (f : β → β) (b : β) (hl : lookupA m k = some b) (hf : f b = b) :
    updateA m k f = m := by
  induction m with
  | nil => rfl
  | cons hd t ih =>
    obtain ⟨k', v⟩ := hd
    by_cases h : k' = k
    · simp only [updateA, if_pos h]
      simp only [lookupA, if_pos h, Option.some.injEq] at hl
      subst hl
      rw [hf]
    · simp only [updateA, if_neg h]
      simp only [lookupA, if_neg h] at hl
      rw [ih hl]

theorem lookupA_updateA {β : Type} (m : List (String × β)) (k k' : String)
    (f : β → β) :
    lookupA (updateA m k f) k' =
      if k = k' then (lookupA m k).map f else lookupA m k' := by
  induction m with
  | nil => simp [updateA, lookupA]
  | cons hd t ih =>
    obtain ⟨k0, v⟩ := hd
    by_cases h0 : k0 = k
    · subst h0
      by_cases h1 : k0 = k'
      · subst h1
        simp [updateA, lookupA]
      · simp [updateA, lookupA, h1, if_neg h1]
    · simp only [updateA, if_neg h0]
      by_cases h1 : k0 = k'
      · subst h1
        have hkk : ¬ k = k0 := fun h => h0 h.symm
        simp [lookupA, hkk]
      · simp only [lookupA, if_neg h1, if_neg h0]
        exact ih

theorem lookupA_append_right {β : Type} (m : List (String × β)) (k : String)
    (v : β) (h : lookupA m k = none) :
    lookupA (m ++ [(k, v)]) k = some v := by
  induction m with
  | nil => simp [lookupA]
  | cons hd t ih =>
    obtain ⟨k0, v0⟩ := hd
    by_cases h0 : k0 = k
    · simp [lookupA, if_pos h0] at h
    · simp only [lookupA, if_neg h0] at h ⊢
      exact ih h

theorem lookupA_append_of_ne {β : Type} (m : List (String × β)) (k k' : String)
    (v : β) (h : k ≠ k') :
    lookupA (m ++ [(k, v)]) k' = lookupA m k' := by
  induction m with
  | nil => simp [lookupA, if_neg h]
  | cons hd t ih =>
    obtain ⟨k0, v0⟩ := hd
    by_cases h0 : k0 = k'
    · simp [lookupA, if_pos h0]
    · simp only [List.cons_append, lookupA, if_neg h0]
      exact ih

/-! ### Stable sort (JS `Array.prototype.sort` with a comparator) -/

/-- Insert `x` into `l`, placing it before the first element it is
strictly before (so equal elements keep their original relative order,
matching JS stable sort). -/
def stableInsert {α : Type} (lt : α → α → Bool) (x : α) : List α → List α
  | [] => [x]
  | y :: l => if lt x y then x :: y :: l else y :: stableInsert lt x l

/-- Stable sort by a strict comparator. -/
def stableSort {α : Type} (lt : α → α → Bool) (l : List α) : List α :=
  l.foldr (stableInsert lt) []

theorem stableInsert_perm {α : Type} (lt : α → α → Bool) (x : α) (l : List α) :
    List.Perm (stableInsert lt x l) (x :: l) := by
  induction l with
  | nil => simp [stableInsert]
  | cons y t ih =>
    unfold stableInsert
    by_cases h : lt x y
    · simp [h]
    · simp only [if_neg h]
      exact List.Perm.trans ((ih).cons y) (List.Perm.swap x y t)

theorem stableSort_perm {α : Type} (lt : α → α → Bool) (l : List α) :
    List.Perm (stableSort lt l) l := by
  induction l with
  | nil => simp [stableSort]
  | cons y t ih =>
    unfold stableSort
    simp only [List.foldr_cons]
    exact List.Perm.trans (stableInsert_perm lt y _) (ih.cons y)

theorem mem_stableSort {α : Type} (lt : α → α → Bool) (l : List α) (a : α) :
    a ∈ stableSort lt l ↔ a ∈ l :=
  (stableSort_perm lt l).mem_iff

theorem mem_stableInsert {α : Type} (lt : α → α → Bool) (x : α) (l : List α)
    (a : α) : a ∈ stableInsert lt x l ↔ a = x ∨ a ∈ l := by
  rw [(stableInsert_perm lt x l).mem_iff]
  simp

theorem pairwise_stableInsert {α : Type} (lt : α → α → Bool)
    (hasym : ∀ a b, lt a b = true → lt b a = false)
    (htrans : ∀ a b c, lt a b = true → lt b c = true → lt a c = true)
    (x : α) (l : List α) (h : l.Pairwise (fun a b => lt b a = false)) :
    (stableInsert lt x l).Pairwise (fun a b => lt b a = false) := by
  induction l with
  | nil => simp [stableInsert]
  | cons y t ih =>
    unfold stableInsert
    rcases List.pairwise_cons.mp h with ⟨hy, ht⟩
    by_cases hxy : lt x y
    · simp only [if_pos hxy]
      refine List.pairwise_cons.mpr ⟨?_, h⟩
      intro z hz
      rcases List.mem_cons.mp hz with rfl | hz'
      · exact hasym x z hxy
      · by_contra hzx
        have hzx' : lt z x = true := by
          cases hlt : lt z x
          · exact absurd hlt hzx
          · rfl
        have : lt z y = true := htrans z x y hzx' hxy
        rw [hy z hz'] at this
        exact Bool.noConfusion this
    · simp only [if_neg hxy]
      refine List.pairwise_cons.mpr ⟨?_, ih ht⟩
      intro z hz
      rcases (mem_stableInsert lt x t z).mp hz with rfl | hz'
      · cases hlt : lt z y
        · rfl
        · exact absurd hlt hxy
      · exact hy z hz'

theorem pairwise_stableSort {α : Type} (lt : α → α → Bool)
    (hasym : ∀ a b, lt a b = true → lt b a = false)
    (htrans : ∀ a b c, lt a b = true → lt b c = true → lt a c = true)
    (l : List α) :
    (stableSort lt l).Pairwise (fun a b => lt b a = false) := by
  induction l with
  | nil => simp [stableSort]
  | cons y t ih =>
    unfold stableSort
    simp only [List.foldr_cons]
    exact pairwise_stableInsert lt hasym htrans y _ ih

/-! ## Alpha Lifecycle Manager (useAlphas.js)

Embedding of the thresholds, the localStorage history store, the dump
detector, the fresh-feed and historical classifiers, the Positioning
view and the feed deduplicator. -/

/-- Weekly context derived from stored mcap data (getWeeklyContext). -/
structure WeeklyContext where
  ageDays : Int
  changeSinceFirst : Int
  drawdownFromPeak : Int
  peakMarketCap : ℚ
  deriving Repr, DecidableEq

/-- Canonical alpha / history record.  One structure models both the
fresh-feed token shape (formatAlpha / PumpFun results) and the persisted
HistoryRecord, exactly as in JS where both are plain objects and missing
numeric fields read as their falsy default 0 through the pervasive
... || 0 coalescing (so 0 stands for a JS undefined field), "" for a
missing string and none for a null object. -/
structure AlphaRec where
  address : String := ""
  symbol : String := ""
  name : String := ""
  description : String := ""
  source : String := ""
  priceUsd : String := "0"
  priceChange24h : ℚ := 0
  volume24h : ℚ := 0
  marketCap : ℚ := 0
  liquidity : ℚ := 0
  peakMarketCap : ℚ := 0
  mcapAtFirstSeen : ℚ := 0
  firstSeen : ℚ := 0
  lastSeen : ℚ := 0
  bondingProgress : Int := 0
  isCooling : Bool := false
  isDumped : Bool := false
  isHistorical : Bool := false
  isPositioning : Bool := false
  coolingLabel : String := ""
  coolingReason : String := ""
  weeklyContext : Option WeeklyContext := none
  deriving Repr, DecidableEq

/-- LIVE_MIN_CHANGE. -/
def LIVE_MIN_CHANGE : ℚ := 0

/-- LIVE_MIN_VOLUME. -/
def LIVE_MIN_VOLUME : ℚ := 10000

/-- COOLING_MIN_VOLUME. -/
def COOLING_MIN_VOLUME : ℚ := 5000

/-- COOLING_MIN_MCAP. -/
def COOLING_MIN_MCAP : ℚ := 10000

/-- HISTORY_MAX_AGE_MS (30 days). -/
def HISTORY_MAX_AGE_MS : ℚ := 30 * 24 * 60 * 60 * 1000

/-- The persisted history store: a JS object keyed by token address,
modelled as an insertion-ordered association list. -/
def HistoryStore : Type := List (String × AlphaRec)

/-- Clamp a 24h percent change to [-100, 5000]
(`Math.min(Math.max(x, -100), 5000)`). -/
def clampChange (x : ℚ) : ℚ := min (max x (-100)) 5000

/-- saveToHistory, one alpha: update the record under its address
(building the `existing[alpha.address] = {...}` object). -/
def saveOneToHistory (now : ℚ) (store : HistoryStore) (alpha : AlphaRec) :
    HistoryStore :=
  if alpha.address = "" then store
  else
    let prev := lookupA store alpha.address
    let prevPeak : ℚ := match prev with
      | some p => jsOr p.peakMarketCap 0
      | none => 0
    let rec1 : AlphaRec :=
      { alpha with
        priceChange24h := clampChange (jsOr alpha.priceChange24h 0)
        firstSeen := match prev with
          | some p => jsOr p.firstSeen now
          | none => now
        lastSeen := now
        peakMarketCap := max prevPeak (jsOr alpha.marketCap 0)
        mcapAtFirstSeen := match prev with
          | some p => jsOr p.mcapAtFirstSeen (jsOr alpha.marketCap 0)
          | none => jsOr alpha.marketCap 0 }
    upsertA store alpha.address rec1

/-- saveToHistory: fold the feed into the store, then prune records whose
lastSeen is older than the 30-day retention window. -/
def saveToHistory (now : ℚ) (alphas : List AlphaRec) (store : HistoryStore) :
    HistoryStore :=
  ((alphas.foldl (saveOneToHistory now) store).filter
    (fun e => decide (now - e.2.lastSeen ≤ HISTORY_MAX_AGE_MS)))

/-- JUNK_SYMBOLS. -/
def JUNK_SYMBOLS : List String :=
  ["SOL", "USDC", "USDT", "WSOL", "BTC", "ETH", "WBTC"]

/-- isJunk. -/
def isJunk (alpha : AlphaRec) : Bool :=
  JUNK_SYMBOLS.contains (jsToUpper alpha.symbol) || jsOr alpha.marketCap 0 = 0

/-- deduplicateAlphas: dedupe the fresh feed by address, higher 24h volume
winning on collision (JS Map preserves first-insertion position). -/
def deduplicateAlphas (alphas : List AlphaRec) : List AlphaRec :=
  (alphas.foldl
    (fun seen alpha =>
      if alpha.address = "" then seen
      else
        match lookupA seen alpha.address with
        | none => seen ++ [(alpha.address, alpha)]
        | some prevRec =>
          if jsOr alpha.volume24h 0 > jsOr prevRec.volume24h 0 then
            updateA seen alpha.address (fun _ => alpha)
          else seen)
    []).map Prod.snd

/-- isDumped: peak ≥ $50K and current mcap below 25% of peak. -/
def isDumped (alpha : AlphaRec) : Bool :=
  let peak := jsOr alpha.peakMarketCap 0
  let current := jsOr alpha.marketCap 0
  if peak < 50000 then false
  else if current = 0 then false
  else decide (current / peak < 1/4)

/-- getWeeklyContext. -/
def getWeeklyContext (now : ℚ) (alpha : AlphaRec) : Option WeeklyContext :=
  let mcapNow := jsOr alpha.marketCap 0
  let mcapFirst := jsOr alpha.mcapAtFirstSeen 0
  let mcapPeak := jsOr alpha.peakMarketCap 0
  let ageMs := now - jsOr alpha.firstSeen now
  let ageDays := ageMs / 86400000
  if ageDays < 1 ∨ mcapFirst = 0 then none
  else
    let changeSinceFirst := if mcapFirst > 0 then (mcapNow - mcapFirst) / mcapFirst * 100 else 0
    let drawdownFromPeak := if mcapPeak > 0 then (mcapNow - mcapPeak) / mcapPeak * 100 else 0
    some
      { ageDays := jsRound ageDays
        changeSinceFirst := jsRound changeSinceFirst
        drawdownFromPeak := jsRound drawdownFromPeak
        peakMarketCap := mcapPeak }

/-- Placement of one token by a classifier pass: skipped, pushed to the
live list, or pushed to the cooling list. -/
inductive HPlace where
  | skipped : HPlace
  | toLive (a : AlphaRec) : HPlace
  | toCooling (a : AlphaRec) : HPlace
  deriving Repr, DecidableEq

/-- classifyByPriceAction, per token: fresh-feed classification of one
alpha (the body of the forEach). -/
def classifyFresh (now : ℚ) (alpha : AlphaRec) : HPlace :=
  if isJunk alpha then .skipped
  else
    let change := clampChange (jsOr alpha.priceChange24h 0)
    let volume := jsOr alpha.volume24h 0
    let mcap := jsOr alpha.marketCap 0
    let dumped := isDumped alpha
    let weekCtx := getWeeklyContext now alpha
    if dumped then
      .toCooling
        { alpha with
          isCooling := true
          isDumped := true
          weeklyContext := weekCtx
          coolingLabel :=
            "Dumped — " ++
              (match weekCtx with
               | some w => toString w.drawdownFromPeak
               | none => "?") ++ "% from peak" }
    else if alpha.source = "pumpfun_pre" then
      if volume ≥ COOLING_MIN_VOLUME ∧ mcap ≥ COOLING_MIN_MCAP then
        .toLive
          { alpha with
            weeklyContext := weekCtx
            coolingLabel :=
              "🎓 " ++
                (if alpha.bondingProgress = 0 then "?"
                 else toString alpha.bondingProgress) ++ "% to graduation" }
      else .skipped
    else if change > LIVE_MIN_CHANGE ∧ volume ≥ LIVE_MIN_VOLUME then
      .toLive { alpha with weeklyContext := weekCtx }
    else if change < 0 ∧ volume ≥ COOLING_MIN_VOLUME ∧ mcap ≥ COOLING_MIN_MCAP then
      .toCooling
        { alpha with
          isCooling := true
          weeklyContext := weekCtx
          coolingLabel := "Watching for reversal" }
    else .skipped

/-- classifyByPriceAction: fresh tokens split into live / cooling
(the two forEach-push arrays, in input order). -/
def classifyByPriceAction (now : ℚ) (alphas : List AlphaRec) :
    List AlphaRec × List AlphaRec :=
  (alphas.filterMap (fun a =>
      match classifyFresh now a with
      | .toLive e => some e
      | _ => none),
   alphas.filterMap (fun a =>
      match classifyFresh now a with
      | .toCooling e => some e
      | _ => none))

/-- Age label used by the historical loader
(`Xd ago` / `Xh ago` / `recently`). -/
def histAgeLabel (ageHours : ℚ) : String :=
  if ⌊ageHours / 24⌋ > 0 then toString ⌊ageHours / 24⌋ ++ "d ago"
  else if ageHours > 0 then toString ⌊ageHours⌋ ++ "h ago"
  else "recently"

/-- loadHistoricalByPriceAction, per record: placement of one stored
token absent from or present in the current feed. -/
def classifyHistorical (now : ℚ) (currentAddresses : List String)
    (a : AlphaRec) : HPlace :=
  let age := now - a.lastSeen
  let inFeed := currentAddresses.contains a.address
  let change := jsOr a.priceChange24h 0
  let volume := jsOr a.volume24h 0
  let mcap := jsOr a.marketCap 0
  if inFeed then .skipped
  else if age > HISTORY_MAX_AGE_MS then .skipped
  else if volume < COOLING_MIN_VOLUME ∨ mcap < COOLING_MIN_MCAP then .skipped
  else
    let ageHours := age / 3600000
    let isStale := decide (ageHours > 2)
    let cappedChange := clampChange change
    let ageLabel := histAgeLabel ageHours
    let peak := jsOr a.peakMarketCap 0
    let dumped := decide (peak > 50000) && decide (mcap > 0) &&
      decide (mcap / peak < 1/4)
    if dumped then
      .toCooling
        { a with
          priceChange24h := cappedChange
          isCooling := true
          isDumped := true
          isHistorical := true
          coolingLabel :=
            "Dumped — " ++ toString (jsRound ((1 - mcap / peak) * 100)) ++
              "% from peak" }
    else if cappedChange > LIVE_MIN_CHANGE ∧ volume ≥ LIVE_MIN_VOLUME ∧ isStale = false then
      .toLive
        { a with
          priceChange24h := cappedChange
          isHistorical := true
          coolingLabel := "" }
    else if cappedChange < 0 ∨ isStale = true then
      .toCooling
        { a with
          priceChange24h := cappedChange
          isCooling := true
          isHistorical := true
          coolingLabel :=
            if isStale then "Last seen " ++ ageLabel
            else "Watching for reversal" }
    else .skipped

/-- loadHistoricalByPriceAction: stored tokens not in the current feed,
split by last-known price action into historicalLive / historicalCooling. -/
def loadHistoricalByPriceAction (now : ℚ) (currentAddresses : List String)
    (store : HistoryStore) : List AlphaRec × List AlphaRec :=
  let vals := store.map Prod.snd
  (vals.filterMap (fun a =>
      match classifyHistorical now currentAddresses a with
      | .toLive e => some e
      | _ => none),
   vals.filterMap (fun a =>
      match classifyHistorical now currentAddresses a with
      | .toCooling e => some e
      | _ => none))

/-- loadPositioningPlays, filter predicate: peak ≥ $50K, alive, traded,
liquid, at least 12h old, drawn down 40%+ from peak. -/
def positioningKeep (now : ℚ) (a : AlphaRec) : Bool :=
  let peak := jsOr a.peakMarketCap 0
  let current := jsOr a.marketCap 0
  let volume := jsOr a.volume24h 0
  let liquidity := jsOr a.liquidity 0
  let age := now - jsOr a.firstSeen now
  if peak < 50000 then false
  else if current = 0 then false
  else if volume < 5000 then false
  else if liquidity < 3000 then false
  else if age < 12 * 3600000 then false
  else decide ((peak - current) / peak ≥ 2/5)

/-- An entry of the Positioning view: the stored record (spread) with the
added opportunity fields from loadPositioningPlays' map step. -/
structure PositioningEntry where
  base : AlphaRec
  drawdownPct : Int
  opportunityScore : Int
  ageDays : Int
  deriving Repr, DecidableEq

/-- loadPositioningPlays, map step: attach drawdown and opportunity score. -/
def positioningScore (now : ℚ) (a : AlphaRec) : PositioningEntry :=
  let peak := jsOr a.peakMarketCap 0
  let current := jsOr a.marketCap 0
  let drawdown := if peak > 0 then (peak - current) / peak else 0
  let ageDays := (now - jsOr a.firstSeen now) / 86400000
  let volScore := min (a.volume24h / 500000) 1
  let drawdownScore := min drawdown (99/100)
  let freshnessScore := max 0 (1 - ageDays / 14)
  { base := { a with isPositioning := true, peakMarketCap := peak }
    drawdownPct := jsRound (drawdown * 100)
    opportunityScore :=
      jsRound ((drawdownScore * (1/2) + volScore * (3/10) + freshnessScore * (1/5)) * 100)
    ageDays := jsRound ageDays }

/-- Comparator of the Positioning sort:
`(a, b) => b.opportunityScore - a.opportunityScore` (descending). -/
def positioningLT (a b : PositioningEntry) : Bool :=
  decide (b.opportunityScore < a.opportunityScore)

/-- loadPositioningPlays: filter the store, score, sort by opportunity
score descending, take the top 30. -/
def loadPositioningPlays (now : ℚ) (store : HistoryStore) :
    List PositioningEntry :=
  ((stableSort positioningLT
    (((store.map Prod.snd).filter (positioningKeep now)).map
      (positioningScore now))).take 30)

/-! ## DEXScreener pair records

One canonical shape for the third-party pair records consumed by the
beta detectors (formatBeta) and the parent resolver (formatParent).
Optional JS sub-objects are flattened; missing string fields are "" and
missing numeric fields are 0, observationally equal under the JS
falsy-coalescing reads. -/

structure DexPair where
  chainId : String := ""
  pairAddress : String := ""
  baseTokenSymbol : String := ""
  baseTokenName : String := ""
  baseTokenAddress : String := ""
  baseTokenDescription : String := ""
  priceUsd : String := ""
  priceChangeH24 : ℚ := 0
  volumeH24 : ℚ := 0
  marketCap : ℚ := 0
  fdv : ℚ := 0
  liquidityUsd : ℚ := 0
  infoImageUrl : String := ""
  infoDescription : String := ""
  descriptionExtra : String := ""
  pairCreatedAt : ℚ := 0
  url : String := ""
  deriving Repr, DecidableEq

/-! ## Parent Resolver (useParentAlpha.js) -/

/-- Levenshtein edit distance (the dp table of editDistance). -/
def editDistance : List Char → List Char → Nat
  | [], bs => bs.length
  | a :: as, [] => (a :: as).length
  | a :: as, b :: bs =>
    if a = b then editDistance as bs
    else 1 + min (editDistance as (b :: bs))
            (min (editDistance (a :: as) bs) (editDistance as bs))
  termination_by as bs => as.length + bs.length
  decreasing_by
    all_goals simp [List.length_cons]
    all_goals omega

/-- Length of the shared leading prefix of two character lists, comparing
position by position until the first mismatch. -/
def sharedPrefixLen : List Char → List Char → Nat
  | a :: as, b :: bs => if a = b then 1 + sharedPrefixLen as bs else 0
  | _, _ => 0

/-- similarity: prefix-coverage heuristic with an edit-distance fallback
(useParentAlpha.js). -/
def similarity (runner candidate : String) : ℚ :=
  let a := jsToUpper runner
  let b := jsToUpper candidate
  if a = b then 1
  else if strStartsWith a b ∧ 3 ≤ b.length then
    (3/4 : ℚ) + ((b.length : ℚ) / (a.length : ℚ)) * (1/5)
  else if strStartsWith b a ∧ 3 ≤ a.length then (4/5 : ℚ)
  else
    let shorter := if a.length ≤ b.length then a else b
    let longer := if a.length ≤ b.length then b else a
    let sharedLen := sharedPrefixLen shorter.data longer.data
    if 4 ≤ sharedLen ∧ ((sharedLen : ℚ) / (shorter.length : ℚ)) ≥ 3/4 then
      (13/20 : ℚ) + ((sharedLen : ℚ) / (shorter.length : ℚ)) * (3/20)
    else
      let maxLen := max a.length b.length
      if maxLen = 0 then 1
      else 1 - (editDistance a.data b.data : ℚ) / (maxLen : ℚ)

/-- Formatted parent record (formatParent).  Note: it carries no
peakMarketCap / mcapAtFirstSeen fields. -/
structure ParentRec where
  id : String := ""
  symbol : String := ""
  name : String := ""
  address : String := ""
  pairAddress : String := ""
  priceUsd : String := ""
  priceChange24h : ℚ := 0
  volume24h : ℚ := 0
  marketCap : ℚ := 0
  liquidity : ℚ := 0
  logoUrl : String := ""
  pairCreatedAt : ℚ := 0
  dexUrl : String := ""
  deriving Repr, DecidableEq

/-- formatParent. -/
def formatParent (pair : DexPair) : ParentRec :=
  { id := jsOrS pair.pairAddress pair.baseTokenAddress
    symbol := jsOrS pair.baseTokenSymbol "???"
    name := jsOrS pair.baseTokenName "Unknown"
    address := jsOrS pair.baseTokenAddress ""
    pairAddress := jsOrS pair.pairAddress ""
    priceUsd := jsOrS pair.priceUsd "0"
    priceChange24h := jsOr pair.priceChangeH24 0
    volume24h := jsOr pair.volumeH24 0
    marketCap := jsOr pair.marketCap pair.fdv
    liquidity := jsOr pair.liquidityUsd 0
    logoUrl := jsOrS pair.infoImageUrl ""
    pairCreatedAt := jsOr pair.pairCreatedAt 0
    dexUrl := jsOrS pair.url ("https://dexscreener.com/solana/" ++ pair.pairAddress) }

/-- saveParentToHistory: write the parent record into the history store.
The stored object is rebuilt from the ParentRec spread, so the fields a
ParentRec does not carry (peakMarketCap, mcapAtFirstSeen, ...) are
absent in the persisted JSON and read back as 0. -/
def saveParentToHistory (now : ℚ) (parent : ParentRec)
    (derivativeSymbol : String) (store : HistoryStore) : HistoryStore :=
  let stored : AlphaRec :=
    { address := parent.address
      symbol := parent.symbol
      name := parent.name
      priceUsd := parent.priceUsd
      priceChange24h := parent.priceChange24h
      volume24h := parent.volume24h
      marketCap := parent.marketCap
      liquidity := parent.liquidity
      peakMarketCap := 0
      mcapAtFirstSeen := 0
      firstSeen :=
        (match lookupA store parent.address with
         | some prev => jsOr prev.firstSeen now
         | none => now)
      lastSeen := now
      coolingReason := "Parent of $" ++ derivativeSymbol }
  upsertA store parent.address stored

/-- The stored peakMarketCap under an address, as every consumer reads it
(`existing[addr]?.peakMarketCap || 0`). -/
def storedPeak (store : HistoryStore) (addr : String) : ℚ :=
  match lookupA store addr with
  | some a => jsOr a.peakMarketCap 0
  | none => 0

/-- The three query tiers carrying a score boost, as built in findParent
step 2 ($TICKER-in-description, description words, name words); every
other query is symbol-derived, boost 0. -/
structure QueryTiers where
  descTicker : List String := []
  descWord : List String := []
  nameQ : List String := []
  deriving Repr, DecidableEq

/-- getBoost (findParent step 3). -/
def getBoost (t : QueryTiers) (q : String) : ℚ :=
  if q ∈ t.descTicker then 2/5
  else if q ∈ t.descWord then 1/4
  else if q ∈ t.nameQ then 1/10
  else 0

/-- First whitespace-separated word of length ≥ 4 of a name
(`name.split(/\s+/).find(w => w.length >= 4) || ''`). -/
def firstLongWord (s : String) : String :=
  ((strSplit s (fun c => c.isWhitespace)).filter (fun w => 4 ≤ w.length)).headD ""

/-- Candidate filter of findParent: on-chain, mcap above 50% of the
alpha's, liquid, and not the alpha itself. -/
def parentConsider (symbol alphaAddress : String) (alphaMcap : ℚ)
    (p : DexPair) : Bool :=
  decide (p.chainId = "solana") &&
  decide (jsOr (jsOr p.marketCap p.fdv) 0 > jsOr alphaMcap 0 * (1/2)) &&
  decide (p.liquidityUsd > 5000) &&
  decide (p.baseTokenAddress ≠ alphaAddress) &&
  decide (jsToUpper p.baseTokenSymbol ≠ symbol)

/-- Base similarity of a (query, pair) candidate: 1.0 on an exact
query/symbol match, else the best of symbol-vs-symbol and
symbol-vs-first-long-name-word similarity. -/
def parentBaseSim (symbol : String) (q : String) (p : DexPair) : ℚ :=
  let cSym := jsToUpper p.baseTokenSymbol
  let cName := jsToUpper p.baseTokenName
  if q = cSym then 1
  else max (similarity symbol cSym) (similarity symbol (firstLongWord cName))

/-- Total score of a (query, pair) candidate: base similarity plus the
query's tier boost. -/
def parentScore (symbol : String) (tiers : QueryTiers)
    (it : String × DexPair) : ℚ :=
  parentBaseSim symbol it.1 it.2 + getBoost tiers it.1

/-- Minimum acceptable base similarity for a query: relaxed (0.30) when a
tier boost applies, strict (0.65) for symbol-pattern queries. -/
def parentMinBase (tiers : QueryTiers) (q : String) : ℚ :=
  if getBoost tiers q > 0 then 3/10 else 13/20

/-- Qualification of a candidate: its base similarity reaches the
query's minimum. -/
def parentQual (symbol : String) (tiers : QueryTiers)
    (it : String × DexPair) : Prop :=
  parentBaseSim symbol it.1 it.2 ≥ parentMinBase tiers it.1

instance parentQualDecidable (symbol : String) (tiers : QueryTiers)
    (it : String × DexPair) : Decidable (parentQual symbol tiers it) := by
  unfold parentQual
  infer_instance

/-- One step of findParent's best-candidate scan: accept the candidate
when its base similarity reaches the query's minimum and its total score
strictly beats the best so far. -/
def parentStep (symbol : String) (tiers : QueryTiers)
    (st : Option DexPair × ℚ) (it : String × DexPair) : Option DexPair × ℚ :=
  if parentQual symbol tiers it ∧ parentScore symbol tiers it > st.2
  then (some it.2, parentScore symbol tiers it) else st

/-- The considered items of a findParent run: each fulfilled search's
pairs, filtered, flattened in order and tagged with their query. -/
def consideredItems (symbol alphaAddress : String) (alphaMcap : ℚ)
    (searches : List (String × List DexPair)) : List (String × DexPair) :=
  searches.flatMap (fun s =>
    (s.2.filter (parentConsider symbol alphaAddress alphaMcap)).map
      (fun p => (s.1, p)))

/-- findParent's scoring scan: fold every considered candidate through
the (bestMatch, bestScore) state starting at (null, 0). -/
def findBestParent (symbol alphaAddress : String) (alphaMcap : ℚ)
    (tiers : QueryTiers) (searches : List (String × List DexPair)) :
    Option DexPair × ℚ :=
  (consideredItems symbol alphaAddress alphaMcap searches).foldl
    (parentStep symbol tiers) (none, 0)

/-- findParent's returned value: the best pair formatted, or null. -/
def findParentResult (symbol alphaAddress : String) (alphaMcap : ℚ)
    (tiers : QueryTiers) (searches : List (String × List DexPair)) :
    Option ParentRec :=
  ((findBestParent symbol alphaAddress alphaMcap tiers searches).1).map formatParent

/-! ## Merge & Classification Engine (useBetas.js) -/

/-- A raw detector result: a pair plus its source tags
(`{ pair, sources }`). -/
structure RawResult where
  pair : DexPair
  sources : List String
  deriving Repr, DecidableEq

/-- A formatted beta candidate (formatBeta). -/
structure Beta where
  id : String := ""
  symbol : String := ""
  name : String := ""
  address : String := ""
  pairAddress : String := ""
  priceUsd : String := ""
  priceChange24h : ℚ := 0
  volume24h : ℚ := 0
  marketCap : ℚ := 0
  liquidity : ℚ := 0
  logoUrl : String := ""
  pairCreatedAt : ℚ := 0
  description : String := ""
  ageLabel : String := ""
  ageMs : Option ℚ := none
  signalSources : List String := []
  tokenClass : String := ""
  dexUrl : String := ""
  mcapRatioVal : Option Int := none
  deriving Repr, DecidableEq

/-- Beta age label (`Xd` / `Xh` / `<1h` / `—`), with JS null-propagating
comparisons (null > 0 is false). -/
def betaAgeLabel (ageMs : Option ℚ) : String :=
  let ageDays : Option Int :=
    match ageMs with
    | some v => if v ≠ 0 then some ⌊v / 86400000⌋ else none
    | none => none
  let ageHours : Option Int :=
    match ageMs with
    | some v => if v ≠ 0 then some ⌊(jsMod v 86400000) / 3600000⌋ else none
    | none => none
  match ageDays with
  | some d =>
    if d > 0 then toString d ++ "d"
    else
      match ageHours with
      | some h => if h > 0 then toString h ++ "h" else "<1h"
      | none => if ageMs.isSome then "<1h" else "—"
  | none =>
    match ageHours with
    | some h =>
      if h > 0 then toString h ++ "h"
      else if ageMs.isSome then "<1h" else "—"
    | none => if ageMs.isSome then "<1h" else "—"

/-- formatBeta. -/
def formatBeta (now : ℚ) (pair : DexPair) (sources : List String) : Beta :=
  let ageMs : Option ℚ :=
    if pair.pairCreatedAt ≠ 0 then some (now - pair.pairCreatedAt) else none
  { id := jsOrS pair.pairAddress pair.baseTokenAddress
    symbol := jsOrS pair.baseTokenSymbol "???"
    name := jsOrS pair.baseTokenName "Unknown"
    address := jsOrS pair.baseTokenAddress ""
    pairAddress := jsOrS pair.pairAddress ""
    priceUsd := jsOrS pair.priceUsd "0"
    priceChange24h := jsOr pair.priceChangeH24 0
    volume24h := jsOr pair.volumeH24 0
    marketCap := jsOr pair.marketCap pair.fdv
    liquidity := jsOr pair.liquidityUsd 0
    logoUrl := jsOrS pair.infoImageUrl ""
    pairCreatedAt := jsOr pair.pairCreatedAt 0
    description := jsOrS pair.infoDescription
      (jsOrS pair.baseTokenDescription pair.descriptionExtra)
    ageLabel := betaAgeLabel ageMs
    ageMs := ageMs
    signalSources := sources
    tokenClass := ""
    dexUrl := jsOrS pair.url ("https://dexscreener.com/solana/" ++ pair.pairAddress) }

/-- getMcapRatioQ (getMcapRatio in useBetas.js): alpha mcap ÷ beta mcap,
rounded; null when either mcap is missing / zero. -/
def getMcapRatioQ (alphaMcap betaMcap : ℚ) : Option Int :=
  if alphaMcap = 0 ∨ betaMcap = 0 then none
  else some (jsRound (alphaMcap / betaMcap))

/-- McapRatioBadge renders nothing (`return null`) when the ratio is
null, zero or below 2; this predicate is its visibility. -/
def mcapRatioBadgeVisible (ratioVal : Option Int) : Bool :=
  match ratioVal with
  | none => false
  | some r => ! (decide (r = 0) || decide (r < 2))

/-- A resolved signal tier (getSignal's `{ label, tier }`). -/
structure Signal where
  label : String
  tier : Nat
  deriving Repr, DecidableEq

/-- getSignal: resolve the signal tier from a beta's source-tag set by
the strict precedence table. -/
def getSignal (beta : Beta) : Signal :=
  let s := beta.signalSources
  if s.contains "lp_pair" then ⟨"CABAL", 6⟩
  else if s.contains "ai_match" && s.contains "keyword" then ⟨"CABAL", 5⟩
  else if s.contains "ai_match" && s.contains "morphology" then ⟨"CABAL", 5⟩
  else if s.contains "pumpfun" && s.contains "keyword" then ⟨"CABAL", 4⟩
  else if s.contains "morphology" && s.contains "keyword" then ⟨"CABAL", 4⟩
  else if s.contains "description" && s.contains "keyword" then ⟨"CABAL", 4⟩
  else if s.contains "pumpfun" then ⟨"TRENDING", 3⟩
  else if s.contains "ai_match" then ⟨"AI", 3⟩
  else if s.contains "description" then ⟨"STRONG", 2⟩
  else if s.contains "morphology" then ⟨"STRONG", 2⟩
  else if s.contains "keyword" then ⟨"STRONG", 2⟩
  else if s.contains "lore" then ⟨"LORE", 1⟩
  else ⟨"WEAK", 0⟩

/-- The key of a raw result in the merge map
(`pair.baseToken?.address || pair.pairAddress`). -/
def mergeKey (r : RawResult) : String :=
  jsOrS r.pair.baseTokenAddress r.pair.pairAddress

/-- The uppercased symbol of a raw result
(`(pair.baseToken?.symbol || '').toUpperCase()`). -/
def mergeSym (r : RawResult) : String :=
  jsToUpper (jsOrS r.pair.baseTokenSymbol "")

/-- Whether the merge skips a raw result (no key, or it is the alpha). -/
def mergeSkips (alphaSymbol : String) (r : RawResult) : Bool :=
  decide (mergeKey r = "") || decide (mergeSym r = jsToUpper alphaSymbol)

/-- The source-union applied on a key collision
(`seen.get(key).signalSources = [...new Set([...old, ...sources])]`). -/
def unionStep (sources : List String) (b : Beta) : Beta :=
  { b with signalSources := jsSetDedup (b.signalSources ++ sources) }

/-- One step of mergeAndScore's dedupe-by-address fold: skip keyless /
alpha rows; on a key collision union the stored signalSources with the
new tags; otherwise insert the formatted beta. -/
def mergeStep (now : ℚ) (alphaSymbol : String) (seen : List (String × Beta))
    (r : RawResult) : List (String × Beta) :=
  if mergeSkips alphaSymbol r then seen
  else
    match lookupA seen (mergeKey r) with
    | some _ => updateA seen (mergeKey r) (unionStep r.sources)
    | none => seen ++ [(mergeKey r, formatBeta now r.pair r.sources)]

/-- mergeAndScore's dedupe map (the `seen` Map after the forEach). -/
def mergeDedupe (now : ℚ) (alphaSymbol : String) (rawResults : List RawResult) :
    List (String × Beta) :=
  rawResults.foldl (mergeStep now alphaSymbol) []

/-- Comparator of classifyTokens' within-group sort:
ascending `pairCreatedAt || Infinity` (0 models a missing timestamp,
which sorts as Infinity). -/
def createdLT (a b : Beta) : Bool :=
  if a.pairCreatedAt = 0 then false
  else if b.pairCreatedAt = 0 then true
  else decide (a.pairCreatedAt < b.pairCreatedAt)

/-- classifyTokens: group by uppercase symbol (insertion order), mark the
earliest of each ≥2 group OG and later members RIVAL or SPIN. -/
def classifyTokens (betas : List Beta) : List Beta :=
  let groups : List (String × List Beta) :=
    betas.foldl (fun gs b =>
      let sym := jsToUpper b.symbol
      match lookupA gs sym with
      | some _ => updateA gs sym (fun l => l ++ [b])
      | none => gs ++ [(sym, [b])]) []
  groups.flatMap (fun g =>
    match g.2 with
    | [b] => [{ b with tokenClass := "" }]
    | group =>
      match stableSort createdLT group with
      | [] => []
      | og :: later =>
        { og with tokenClass := "OG" } ::
          later.map (fun token =>
            let isRival :=
              decide (jsOr token.marketCap 0 ≥ jsOr og.marketCap 1 * (4/5)) ||
              decide (jsOr token.volume24h 0 > jsOr og.volume24h 1)
            { token with tokenClass := if isRival then "RIVAL" else "SPIN" }))

/-- Comparator of mergeAndScore's final sort: LP-paired candidates first,
then descending 24h percent change. -/
def betaSortLT (a b : Beta) : Bool :=
  let aLP : Nat := if a.signalSources.contains "lp_pair" then 1 else 0
  let bLP : Nat := if b.signalSources.contains "lp_pair" then 1 else 0
  if aLP ≠ bLP then decide (bLP < aLP)
  else decide (jsOr b.priceChange24h 0 < jsOr a.priceChange24h 0)

/-- mergeAndScore: dedupe by address with source-tag union, drop native /
stable symbols, classify OG/RIVAL/SPIN, attach the mcap ratio, sort
LP-first then by 24h change, truncate to 30. -/
def mergeAndScore (now : ℚ) (rawResults : List RawResult)
    (alphaSymbol : String) (alphaMcap : ℚ) : List Beta :=
  let deduped :=
    ((mergeDedupe now alphaSymbol rawResults).map Prod.snd).filter
      (fun b => ! (["SOL", "USDC", "USDT"].contains b.symbol))
  ((stableSort betaSortLT
    ((classifyTokens deduped).map
      (fun b => { b with mcapRatioVal := getMcapRatioQ alphaMcap b.marketCap })))).take 30

/-! ## Narrative Clustering Engine (useNarrativeSzn) -/

/-- Substring check on character lists (JS `String.prototype.includes`). -/
def charsInclude (hay need : List Char) : Bool :=
  (List.range (hay.length + 1)).any (fun i => need.isPrefixOf (hay.drop i))

/-- JS `haystack.includes(kw)`. -/
def strIncludes (hay need : String) : Bool :=
  charsInclude hay.data need.data

/-- A narrative category of the NARRATIVE_CATEGORIES table
(priority 0 models a missing priority, read as 2). -/
structure SznCategory where
  label : String := ""
  priority : Int := 0
  keywords : List String := []
  deriving Repr, DecidableEq

/-- A category table (the engine is generic in the curated table, which
lives in lore_map.js). -/
def CategoryTable : Type := List (String × SznCategory)

/-- JS `priority || 2` on the Int-valued priority field. -/
def jsOr2 (p : Int) : Int := if p = 0 then 2 else p

/-- SORTED_CATEGORIES: the table stably sorted by ascending priority
(`(a[1].priority || 2) - (b[1].priority || 2)`). -/
def sortedCategories (cats : CategoryTable) : CategoryTable :=
  stableSort
    (fun a b => decide (jsOr2 a.2.priority < jsOr2 b.2.priority)) cats

/-- detectCategory: first (priority-ordered) category one of whose
keywords occurs in the lowercased symbol+name+description haystack. -/
def detectCategory (cats : CategoryTable) (symbol name description : String) :
    Option String :=
  let haystack := jsToLower (symbol ++ " " ++ name ++ " " ++ description)
  ((sortedCategories cats).find? (fun e =>
    e.2.keywords.any (fun kw => strIncludes haystack kw))).map Prod.fst

/-- JS `Math.max(...changes)` on a nonempty list (guarded empty case 0). -/
def jsMaxList (l : List ℚ) : ℚ :=
  match l with
  | [] => 0
  | h :: t => t.foldl max h

/-- calcSznScore: 40% volume, 30% momentum, 20% leader gain, 10% depth,
scaled to 0–100. -/
def calcSznScore (tokens : List AlphaRec) (totalVolume : ℚ) : Int :=
  if tokens = [] then 0
  else
    let changes := tokens.map (fun t => jsOr t.priceChange24h 0)
    let greenCount : ℚ := ((changes.filter (fun c => decide (c > 0))).length : ℚ)
    let momentum := greenCount / (tokens.length : ℚ)
    let leaderGain := jsMaxList changes
    let depth := min ((tokens.length : ℚ) / 10) 1
    let volScore := min (totalVolume / 10000000) 1
    let leaderScore := min (leaderGain / 1000) 1
    jsRound ((volScore * (2/5) + momentum * (3/10) + leaderScore * (1/5) +
      depth * (1/10)) * 100)

/-- A heat tier (getHeat's `{ label, color, emoji }`). -/
structure Heat where
  label : String
  color : String
  emoji : String
  deriving Repr, DecidableEq

/-- getHeat. -/
def getHeat (score : Int) : Heat :=
  if score ≥ 70 then ⟨"EXPLODING", "#FF4466", "🔥"⟩
  else if score ≥ 50 then ⟨"HOT", "#FFB800", "⚡"⟩
  else if score ≥ 30 then ⟨"WARMING", "#00FF88", "📈"⟩
  else ⟨"MILD", "#888888", "😴"⟩

/-- A Szn card. -/
structure SznCard where
  id : String
  key : String
  label : String
  tokens : List AlphaRec
  totalVolume : ℚ
  avgChange : ℚ
  momentum : Int
  leader : Option AlphaRec
  sznScore : Int
  heat : Heat
  tokenCount : Nat
  source : String
  aiEnriched : Nat := 0
  deriving Repr, DecidableEq

/-- Comparator of the within-card token sort: descending 24h change. -/
def changeDescLT (a b : AlphaRec) : Bool :=
  decide (jsOr b.priceChange24h 0 < jsOr a.priceChange24h 0)

/-- buildSznCard (only ever invoked on a nonempty token list). -/
def buildSznCard (key label : String) (tokens : List AlphaRec)
    (source : String) : SznCard :=
  let changes := tokens.map (fun t => jsOr t.priceChange24h 0)
  let avgChange :=
    if tokens.length = 0 then 0 else changes.sum / (changes.length : ℚ)
  let greenCount : ℚ := ((changes.filter (fun c => decide (c > 0))).length : ℚ)
  let momentum :=
    if tokens.length = 0 then 0
    else jsRound (greenCount / (tokens.length : ℚ) * 100)
  let totalVol := (tokens.map (fun t => jsOr t.volume24h 0)).sum
  let sortedTokens := stableSort changeDescLT tokens
  let sznScore := calcSznScore tokens totalVol
  { id := "szn-" ++ key
    key := key
    label := label
    tokens := sortedTokens
    totalVolume := totalVol
    avgChange := avgChange
    momentum := momentum
    leader := sortedTokens.head?
    sznScore := sznScore
    heat := getHeat sznScore
    tokenCount := tokens.length
    source := source }

/-- MIN_TOKENS_FOR_SZN. -/
def MIN_TOKENS_FOR_SZN : Nat := 2

/-- Comparator of the card sort: descending sznScore. -/
def sznScoreDescLT (a b : SznCard) : Bool :=
  decide (b.sznScore < a.sznScore)

/-- Pass 1 grouping: category key → matched live tokens, in insertion
order, plus the unmatched remainder. -/
def sznGroup (cats : CategoryTable) (liveAlphas : List AlphaRec) :
    List (String × List AlphaRec) × List AlphaRec :=
  liveAlphas.foldl (fun st alpha =>
    match detectCategory cats alpha.symbol (jsOrS alpha.name "")
        (jsOrS alpha.description "") with
    | some catKey =>
      (match lookupA st.1 catKey with
       | some _ => (updateA st.1 catKey (fun l => l ++ [alpha]), st.2)
       | none => (st.1 ++ [(catKey, [alpha])], st.2))
    | none => (st.1, st.2 ++ [alpha])) ([], [])

/-- The label of a category key in the table (NARRATIVE_CATEGORIES[k].label). -/
def catLabel (cats : CategoryTable) (k : String) : String :=
  match lookupA cats k with
  | some c => c.label
  | none => ""

/-- Pass 1 (keyword) cards: groups of ≥ MIN_TOKENS_FOR_SZN become cards,
sorted by sznScore descending. -/
def keywordCards (cats : CategoryTable) (liveAlphas : List AlphaRec) :
    List SznCard :=
  stableSort sznScoreDescLT
    (((sznGroup cats liveAlphas).1.filter
        (fun g => MIN_TOKENS_FOR_SZN ≤ g.2.length)).map
      (fun g => buildSznCard g.1 (catLabel cats g.1) g.2 "keyword"))

/-- An AI-proposed novel narrative group. -/
structure NovelGroup where
  key : String
  label : String
  tokens : List AlphaRec
  deriving Repr, DecidableEq

/-- Pass 2 novel cards: AI-discovered groups of ≥ MIN_TOKENS_FOR_SZN. -/
def novelCards (novelGroups : List NovelGroup) : List SznCard :=
  (novelGroups.filter (fun g => MIN_TOKENS_FOR_SZN ≤ g.tokens.length)).map
    (fun g => buildSznCard g.key g.label g.tokens "ai")

/-- The merged Szn card list: keyword cards (possibly AI/vision-enriched,
which only adds tokens) plus novel AI cards, sorted by sznScore. -/
def sznCards (cats : CategoryTable) (liveAlphas : List AlphaRec)
    (aiEnrichments : List (String × List AlphaRec))
    (novelGroups : List NovelGroup) : List SznCard :=
  let merged := (keywordCards cats liveAlphas).map (fun card =>
    match lookupA aiEnrichments card.key with
    | none => card
    | some extra =>
      if extra = [] then card
      else
        { buildSznCard card.key card.label (card.tokens ++ extra) "mixed" with
          aiEnriched := extra.length })
  stableSort sznScoreDescLT (merged ++ novelCards novelGroups)

/-! ## Claim theorems -/

/-- A record with peak exactly $50K: dumped per the fresh-path predicate
but above the historical loader's strict `peak > 50_000` cut. -/
def exC1rec : AlphaRec := {
  address := "A"
  symbol := "XYZ"
  priceChange24h := 5
  volume24h := 10000
  marketCap := 10000
  peakMarketCap := 50000 }

/-- C1 counterexample: with peak market cap exactly 50,000 (≥ 50,000),
nonzero current mcap at 20% of peak, the historical loading path does
not mark the token Dumped — it places it in the Live list (the loader's
dump test is strictly `peak > 50_000`), refuting the claim as stated. -/
theorem peak_boundary_counterexample :
    jsOr exC1rec.peakMarketCap 0 ≥ 50000 ∧
    jsOr exC1rec.marketCap 0 ≠ 0 ∧
    jsOr exC1rec.marketCap 0 / jsOr exC1rec.peakMarketCap 0 < 1/4 ∧
    (loadHistoricalByPriceAction 3600000 [] [("A", exC1rec)]).2 = [] ∧
    (loadHistoricalByPriceAction 3600000 [] [("A", exC1rec)]).1 =
      [{ exC1rec with
          priceChange24h := 5, isHistorical := true, coolingLabel := "" }] := by
  have hc : classifyHistorical 3600000 [] exC1rec =
      HPlace.toLive { exC1rec with
        priceChange24h := 5, isHistorical := true, coolingLabel := "" } := by
    norm_num [classifyHistorical, exC1rec, jsOr, clampChange, HISTORY_MAX_AGE_MS,
      COOLING_MIN_VOLUME, COOLING_MIN_MCAP, LIVE_MIN_CHANGE, LIVE_MIN_VOLUME,
      histAgeLabel]
  refine ⟨by norm_num [exC1rec, jsOr], by norm_num [exC1rec, jsOr],
    by norm_num [exC1rec, jsOr], ?_, ?_⟩ <;>
    simp [loadHistoricalByPriceAction, hc, List.filterMap_cons]

/-- C1 (amended): a token with nonzero current mcap below 25% of its
stored peak is marked Dumped (Cooling with isDumped) regardless of its
raw 24h change — in the fresh-feed path whenever it is not a junk symbol
and its peak is at least $50K, and in the historical path whenever it
additionally passes that path's gates (absent from the feed, within the
30-day retention window, volume ≥ $5K, mcap ≥ $10K) and its peak is
strictly above $50K. -/
theorem dumped_overrides_change (now : ℚ) (feed : List String) (a : AlphaRec) :
    (isJunk a = false → jsOr a.peakMarketCap 0 ≥ 50000 →
      jsOr a.marketCap 0 ≠ 0 →
      jsOr a.marketCap 0 / jsOr a.peakMarketCap 0 < 1/4 →
      ∃ e, classifyFresh now a = HPlace.toCooling e ∧ e.isDumped = true) ∧
    (feed.contains a.address = false →
      now - a.lastSeen ≤ HISTORY_MAX_AGE_MS →
      jsOr a.volume24h 0 ≥ COOLING_MIN_VOLUME →
      jsOr a.marketCap 0 ≥ COOLING_MIN_MCAP →
      jsOr a.peakMarketCap 0 > 50000 →
      jsOr a.marketCap 0 / jsOr a.peakMarketCap 0 < 1/4 →
      ∃ e, classifyHistorical now feed a = HPlace.toCooling e ∧ e.isDumped = true) := by
  constructor
  · intro hjunk hpeak hmcap hratio
    have hdump : isDumped a = true := by
      unfold isDumped
      rw [if_neg (not_lt.mpr hpeak), if_neg hmcap]
      exact decide_eq_true hratio
    refine ⟨{ a with
        isCooling := true
        isDumped := true
        weeklyContext := getWeeklyContext now a
        coolingLabel :=
          "Dumped — " ++
            (match getWeeklyContext now a with
             | some w => toString w.drawdownFromPeak
             | none => "?") ++ "% from peak" }, ?_, rfl⟩
    simp [classifyFresh, hjunk, hdump]
  · intro hfeed hage hvol hmcap hpeak hratio
    have hmcap0 : jsOr a.marketCap 0 > 0 := by
      have : (0:ℚ) < COOLING_MIN_MCAP := by norm_num [COOLING_MIN_MCAP]
      linarith
    have hfeed' : a.address ∉ feed := by simpa using hfeed
    have hdumpb : (decide (jsOr a.peakMarketCap 0 > 50000) &&
        decide (jsOr a.marketCap 0 > 0) &&
        decide (jsOr a.marketCap 0 / jsOr a.peakMarketCap 0 < 1/4)) = true := by
      simp only [Bool.and_eq_true, decide_eq_true_eq]
      exact ⟨⟨hpeak, hmcap0⟩, hratio⟩
    refine ⟨{ a with
        priceChange24h := clampChange (jsOr a.priceChange24h 0)
        isCooling := true
        isDumped := true
        isHistorical := true
        coolingLabel :=
          "Dumped — " ++
            toString (jsRound ((1 - jsOr a.marketCap 0 / jsOr a.peakMarketCap 0) * 100)) ++
            "% from peak" }, ?_, rfl⟩
    unfold classifyHistorical
    rw [if_neg (by simpa using hfeed'), if_neg (not_lt.mpr hage),
      if_neg (by push_neg; exact ⟨hvol, hmcap⟩),
      if_pos hdumpb]

/-- C1 witness: the amended theorem applied at a concrete dumped record
(peak $800K, current $12K, change +1164%). -/
def exC1wit : AlphaRec := {
  address := "W"
  symbol := "WISOLDMAN"
  priceChange24h := 1164
  volume24h := 20000
  marketCap := 12000
  peakMarketCap := 800000
  lastSeen := 0 }

theorem dumped_overrides_change_witness :
    (∃ e, classifyFresh 3600000 exC1wit = HPlace.toCooling e ∧ e.isDumped = true) ∧
    (∃ e, classifyHistorical 3600000 [] exC1wit = HPlace.toCooling e ∧
      e.isDumped = true) :=
  ⟨(dumped_overrides_change 3600000 [] exC1wit).1 (by decide) (by decide)
     (by decide) (by norm_num [exC1wit, jsOr]),
   (dumped_overrides_change 3600000 [] exC1wit).2 (by decide)
     (by norm_num [exC1wit, HISTORY_MAX_AGE_MS]) (by decide) (by decide)
     (by decide) (by norm_num [exC1wit, jsOr])⟩

/-- A store holding a record with peak $100K under address P. -/
def exC2store : HistoryStore := [("P", {
  address := "P"
  symbol := "PAR"
  peakMarketCap := 100000
  firstSeen := 1
  lastSeen := 1 })]

/-- A discovered parent for the same address; formatParent output carries
no peakMarketCap field. -/
def exC2parent : ParentRec := {
  id := "x"
  symbol := "PAR"
  name := "Parent"
  address := "P"
  marketCap := 10000 }

/-- C2: evaluating the code at the failing input — a history record with
stored peakMarketCap 100,000 is overwritten by saveParentToHistory
(which rebuilds the record from the parent object, dropping the peak),
so the stored peak drops from 100,000 to 0 across the write-back. -/
theorem saveParentToHistory_drops_stored_peak :
    storedPeak exC2store "P" = 100000 ∧
    storedPeak (saveParentToHistory 5 exC2parent "DRV" exC2store) "P" = 0 := by
  decide

/-- C4: a candidate whose SignalSet contains lp_pair resolves strictly
above a candidate whose SignalSet is exactly {keyword, morphology}
(tier 6 CABAL versus tier 4 CABAL). -/
theorem lp_pair_outranks_keyword_morphology (b1 b2 : Beta)
    (h1 : "lp_pair" ∈ b1.signalSources)
    (h2k : "keyword" ∈ b2.signalSources)
    (h2m : "morphology" ∈ b2.signalSources)
    (h2only : ∀ s ∈ b2.signalSources, s = "keyword" ∨ s = "morphology") :
    (getSignal b2).tier < (getSignal b1).tier := by
  have hb1 : (getSignal b1).tier = 6 := by
    unfold getSignal
    rw [if_pos (by simpa using h1)]
  have hlp : "lp_pair" ∉ b2.signalSources := by
    intro hm
    rcases h2only _ hm with h | h <;> exact absurd h (by decide)
  have hai : "ai_match" ∉ b2.signalSources := by
    intro hm
    rcases h2only _ hm with h | h <;> exact absurd h (by decide)
  have hpf : "pumpfun" ∉ b2.signalSources := by
    intro hm
    rcases h2only _ hm with h | h <;> exact absurd h (by decide)
  have hb2 : (getSignal b2).tier = 4 := by
    unfold getSignal
    rw [if_neg (by simp [hlp]), if_neg (by simp [hai]), if_neg (by simp [hai]),
      if_neg (by simp [hpf]), if_pos (by simp [h2m, h2k])]
  rw [hb1, hb2]
  omega

theorem lp_pair_outranks_keyword_morphology_witness :
    (getSignal { signalSources := ["keyword", "morphology"] }).tier <
      (getSignal { signalSources := ["lp_pair"] }).tier :=
  lp_pair_outranks_keyword_morphology
    { signalSources := ["lp_pair"] } { signalSources := ["keyword", "morphology"] }
    (by simp) (by simp) (by simp) (by decide)

/-- C5 counterexample: with alpha mcap 100 and candidate mcap 100 (both
positive, ratio 1 < 2) the derived ratio value is some 1, not null —
the data model does not null ratios below 2. -/
theorem mcapRatio_below_two_not_null :
    (100 : ℚ) / 100 < 2 ∧ getMcapRatioQ 100 100 = some 1 := by
  constructor
  · norm_num
  · norm_num [getMcapRatioQ, jsRound]

/-- C5 (amended): for positive alpha and candidate mcaps the derived
ratio is always `Math.round(alpha / candidate)` — never null; a rounded
ratio below 2 is suppressed by the display layer (McapRatioBadge renders
nothing), not nulled in the data model. -/
theorem mcapRatio_rounded_badge_hidden (a b : ℚ) (ha : 0 < a) (hb : 0 < b) :
    getMcapRatioQ a b = some (jsRound (a / b)) ∧
    (jsRound (a / b) < 2 →
      mcapRatioBadgeVisible (getMcapRatioQ a b) = false) := by
  have ha' : ¬ (a = 0) := ne_of_gt ha
  have hb' : ¬ (b = 0) := ne_of_gt hb
  have hr : getMcapRatioQ a b = some (jsRound (a / b)) := by
    unfold getMcapRatioQ
    rw [if_neg (by push_neg; exact ⟨ha', hb'⟩)]
  refine ⟨hr, ?_⟩
  intro hlt
  rw [hr]
  unfold mcapRatioBadgeVisible
  simp [hlt]

theorem mcapRatio_rounded_badge_hidden_witness :
    getMcapRatioQ 100 100 = some (jsRound ((100 : ℚ) / 100)) ∧
    (jsRound ((100 : ℚ) / 100) < 2 →
      mcapRatioBadgeVisible (getMcapRatioQ 100 100) = false) :=
  mcapRatio_rounded_badge_hidden 100 100 (by norm_num) (by norm_num)

/-- A record last seen 31 days ago: older than 2 hours, active, not
dumped — but outside the 30-day retention window. -/
def exC6rec : AlphaRec := {
  address := "B"
  symbol := "OLD"
  priceChange24h := 5
  volume24h := 6000
  marketCap := 20000
  lastSeen := 0 }

/-- C6 counterexample: a stored record absent from the feed, over 2 hours
old, passing the volume/mcap floors, not dumped, with positive last-known
change — aged 31 days, the historical loader skips it entirely instead of
placing it in Cooling (the retention window bounds the claim). -/
theorem stale_retention_counterexample :
    (([] : List String).contains exC6rec.address = false) ∧
    (31 * 24 * 3600000 : ℚ) - exC6rec.lastSeen > 2 * 3600000 ∧
    jsOr exC6rec.volume24h 0 ≥ COOLING_MIN_VOLUME ∧
    jsOr exC6rec.marketCap 0 ≥ COOLING_MIN_MCAP ∧
    (¬ (jsOr exC6rec.peakMarketCap 0 > 50000 ∧ jsOr exC6rec.marketCap 0 > 0 ∧
        jsOr exC6rec.marketCap 0 / jsOr exC6rec.peakMarketCap 0 < 1/4)) ∧
    jsOr exC6rec.priceChange24h 0 > 0 ∧
    loadHistoricalByPriceAction (31 * 24 * 3600000) [] [("B", exC6rec)] = ([], []) := by
  have hc : classifyHistorical (31 * 24 * 3600000) [] exC6rec = HPlace.skipped := by
    norm_num [classifyHistorical, exC6rec, jsOr, HISTORY_MAX_AGE_MS,
      COOLING_MIN_VOLUME, COOLING_MIN_MCAP]
  refine ⟨by decide, by norm_num [exC6rec], by decide, by decide,
    by norm_num [exC6rec, jsOr], by decide, ?_⟩
  simp [loadHistoricalByPriceAction, hc, List.filterMap_cons, Prod.ext_iff]

/-- C6 (amended): a stored token older than 2 hours is never placed in
the Live list by the historical loader; and when it is additionally
within the 30-day retention window, absent from the feed, passes the
volume/mcap floors and is not dumped, it is placed in Cooling with a
"Last seen" label — even when its last-known 24h change was positive. -/
theorem stale_never_live_cooling_label (now : ℚ) (feed : List String)
    (a : AlphaRec) :
    (now - a.lastSeen > 2 * 3600000 →
      ∀ e, classifyHistorical now feed a ≠ HPlace.toLive e) ∧
    (feed.contains a.address = false →
      now - a.lastSeen > 2 * 3600000 →
      now - a.lastSeen ≤ HISTORY_MAX_AGE_MS →
      jsOr a.volume24h 0 ≥ COOLING_MIN_VOLUME →
      jsOr a.marketCap 0 ≥ COOLING_MIN_MCAP →
      ¬ (jsOr a.peakMarketCap 0 > 50000 ∧ jsOr a.marketCap 0 > 0 ∧
          jsOr a.marketCap 0 / jsOr a.peakMarketCap 0 < 1/4) →
      ∃ e, classifyHistorical now feed a = HPlace.toCooling e ∧
        e.isCooling = true ∧
        e.coolingLabel =
          "Last seen " ++ histAgeLabel ((now - a.lastSeen) / 3600000)) := by
  have hs2 : now - a.lastSeen > 2 * 3600000 →
      (now - a.lastSeen) / 3600000 > 2 := by
    intro h
    rw [gt_iff_lt, lt_div_iff₀ (by norm_num : (0:ℚ) < 3600000)]
    linarith
  constructor
  · intro hstale e
    have h2 := hs2 hstale
    simp only [classifyHistorical]
    split_ifs with h1 hb hc hd he hf <;> simp_all
  · intro hfeed hstale hage hvol hmcap hnd
    have h2 := hs2 hstale
    have hstb : decide ((now - a.lastSeen) / 3600000 > 2) = true :=
      decide_eq_true h2
    have hfeed' : a.address ∉ feed := by simpa using hfeed
    have hndb : (decide (jsOr a.peakMarketCap 0 > 50000) &&
        decide (jsOr a.marketCap 0 > 0) &&
        decide (jsOr a.marketCap 0 / jsOr a.peakMarketCap 0 < 1/4)) = false := by
      rw [Bool.eq_false_iff]
      intro hb
      simp only [Bool.and_eq_true, decide_eq_true_eq] at hb
      exact hnd ⟨hb.1.1, hb.1.2, hb.2⟩
    refine ⟨{ a with
        priceChange24h := clampChange (jsOr a.priceChange24h 0)
        isCooling := true
        isHistorical := true
        coolingLabel :=
          "Last seen " ++ histAgeLabel ((now - a.lastSeen) / 3600000) }, ?_, rfl, rfl⟩
    unfold classifyHistorical
    rw [if_neg (by simpa using hfeed'), if_neg (not_lt.mpr hage),
      if_neg (by push_neg; exact ⟨hvol, hmcap⟩),
      if_neg (by rw [hndb]; simp),
      if_neg (by intro h; rw [hstb] at h; simp at h),
      if_pos (Or.inr hstb)]
    simp [hstb]

/-- C6 witness: the amended theorem applied at a record last seen 3 hours
ago with a positive last-known change. -/
theorem stale_never_live_cooling_label_witness :
    ((3 * 3600000 : ℚ) - exC6rec.lastSeen > 2 * 3600000 ∧
      ∀ e, classifyHistorical (3 * 3600000) [] exC6rec ≠ HPlace.toLive e) ∧
    (∃ e, classifyHistorical (3 * 3600000) [] exC6rec = HPlace.toCooling e ∧
      e.isCooling = true ∧
      e.coolingLabel =
        "Last seen " ++ histAgeLabel (((3 * 3600000 : ℚ) - exC6rec.lastSeen) / 3600000)) :=
  ⟨⟨by norm_num [exC6rec],
    (stale_never_live_cooling_label (3 * 3600000) [] exC6rec).1
      (by norm_num [exC6rec])⟩,
   (stale_never_live_cooling_label (3 * 3600000) [] exC6rec).2 (by decide)
     (by norm_num [exC6rec]) (by norm_num [exC6rec, HISTORY_MAX_AGE_MS])
     (by decide) (by decide) (by norm_num [exC6rec, jsOr])⟩

/-- C7: the Positioning view is exactly the stored records passing the
claimed thresholds, scored by the claimed opportunity formula, sorted by
that score descending and truncated to 30. -/
theorem loadPositioningPlays_spec (now : ℚ) (store : HistoryStore) :
    (∀ a : AlphaRec, positioningKeep now a = true ↔
      (jsOr a.peakMarketCap 0 ≥ 50000 ∧ jsOr a.marketCap 0 ≠ 0 ∧
       (jsOr a.peakMarketCap 0 - jsOr a.marketCap 0) / jsOr a.peakMarketCap 0 ≥ 2/5 ∧
       jsOr a.volume24h 0 ≥ 5000 ∧ jsOr a.liquidity 0 ≥ 3000 ∧
       now - jsOr a.firstSeen now ≥ 12 * 3600000)) ∧
    (∀ a : AlphaRec, positioningKeep now a = true →
      (positioningScore now a).opportunityScore =
        jsRound (100 * (
          (1/2) * min ((jsOr a.peakMarketCap 0 - jsOr a.marketCap 0) / jsOr a.peakMarketCap 0) (99/100) +
          (3/10) * min (a.volume24h / 500000) 1 +
          (1/5) * max 0 (1 - ((now - jsOr a.firstSeen now) / 86400000) / 14)))) ∧
    (∃ l, List.Perm l
        (((store.map Prod.snd).filter (positioningKeep now)).map (positioningScore now)) ∧
      l.Pairwise (fun x y => y.opportunityScore ≤ x.opportunityScore) ∧
      loadPositioningPlays now store = l.take 30) := by
  have hkeep : ∀ a : AlphaRec, positioningKeep now a = true ↔
      (jsOr a.peakMarketCap 0 ≥ 50000 ∧ jsOr a.marketCap 0 ≠ 0 ∧
       (jsOr a.peakMarketCap 0 - jsOr a.marketCap 0) / jsOr a.peakMarketCap 0 ≥ 2/5 ∧
       jsOr a.volume24h 0 ≥ 5000 ∧ jsOr a.liquidity 0 ≥ 3000 ∧
       now - jsOr a.firstSeen now ≥ 12 * 3600000) := by
    intro a
    constructor
    · intro h
      simp only [positioningKeep] at h
      split_ifs at h with h1 h2 h3 h4 h5
      simp only [decide_eq_true_eq] at h
      exact ⟨not_lt.mp h1, h2, h, not_lt.mp h3, not_lt.mp h4, not_lt.mp h5⟩
    · rintro ⟨c1, c2, c3, c4, c5, c6⟩
      simp only [positioningKeep]
      rw [if_neg (not_lt.mpr c1), if_neg c2, if_neg (not_lt.mpr c4),
        if_neg (not_lt.mpr c5), if_neg (not_lt.mpr c6)]
      exact decide_eq_true c3
  refine ⟨hkeep, ?_, ?_⟩
  · intro a h
    have hp : jsOr a.peakMarketCap 0 ≥ 50000 := ((hkeep a).mp h).1
    have hp0 : jsOr a.peakMarketCap 0 > 0 := lt_of_lt_of_le (by norm_num) hp
    simp only [positioningScore, if_pos hp0]
    congr 1
    ring
  · refine ⟨stableSort positioningLT
      (((store.map Prod.snd).filter (positioningKeep now)).map (positioningScore now)),
      stableSort_perm _ _, ?_, rfl⟩
    have hpw := pairwise_stableSort positioningLT
      (by
        intro x y hxy
        simp only [positioningLT, decide_eq_true_eq] at hxy
        simp only [positioningLT, decide_eq_false_iff_not]
        omega)
      (by
        intro x y z hxy hyz
        simp only [positioningLT, decide_eq_true_eq] at hxy hyz ⊢
        omega)
      (((store.map Prod.snd).filter (positioningKeep now)).map (positioningScore now))
    refine hpw.imp ?_
    intro x y hxy
    simp only [positioningLT, decide_eq_false_iff_not] at hxy
    omega

/-- A stored record qualifying for the Positioning view. -/
def exC7rec : AlphaRec := {
  address := "q"
  symbol := "QQQ"
  peakMarketCap := 100000
  marketCap := 30000
  volume24h := 60000
  liquidity := 5000
  firstSeen := 1
  lastSeen := 1 }

/-- C7 witness: the Positioning specification instantiated at a concrete
one-record store. -/
theorem loadPositioningPlays_spec_witness :
    ∃ l, List.Perm l
        ((([("q", exC7rec)].map Prod.snd).filter (positioningKeep (24 * 3600000))).map
          (positioningScore (24 * 3600000))) ∧
      l.Pairwise (fun x y => y.opportunityScore ≤ x.opportunityScore) ∧
      loadPositioningPlays (24 * 3600000) [("q", exC7rec)] = l.take 30 :=
  (loadPositioningPlays_spec (24 * 3600000) [("q", exC7rec)]).2.2



/-- Token counts of a built Szn card: tokenCount is the member count and
the tokens field is a permutation of the members. -/
theorem buildSznCard_counts (key label : String) (tokens : List AlphaRec)
    (source : String) :
    (buildSznCard key label tokens source).tokenCount = tokens.length ∧
    (buildSznCard key label tokens source).tokens.length = tokens.length := by
  constructor
  · rfl
  · simp only [buildSznCard]
    exact (stableSort_perm changeDescLT tokens).length_eq

/-- Every keyword-pass card has at least MIN_TOKENS_FOR_SZN members. -/
theorem mem_keywordCards_two_le (cats : CategoryTable)
    (liveAlphas : List AlphaRec) (card : SznCard)
    (h : card ∈ keywordCards cats liveAlphas) :
    MIN_TOKENS_FOR_SZN ≤ card.tokens.length ∧
    MIN_TOKENS_FOR_SZN ≤ card.tokenCount := by
  unfold keywordCards at h
  rw [mem_stableSort] at h
  obtain ⟨g, hgmem, rfl⟩ := List.mem_map.mp h
  have hglen : MIN_TOKENS_FOR_SZN ≤ g.2.length := by
    have := (List.mem_filter.mp hgmem).2
    simpa using this
  obtain ⟨hc1, hc2⟩ := buildSznCard_counts g.1 (catLabel cats g.1) g.2 "keyword"
  exact ⟨hc2 ▸ hglen, hc1 ▸ hglen⟩

/-- C9: every emitted Szn card — keyword pass, AI-enriched, or novel —
has at least 2 member tokens; a category matched by exactly one live
token never yields a card. -/
theorem sznCards_min_two_members (cats : CategoryTable)
    (liveAlphas : List AlphaRec)
    (aiEnrichments : List (String × List AlphaRec))
    (novelGroups : List NovelGroup) :
    ∀ card ∈ sznCards cats liveAlphas aiEnrichments novelGroups,
      MIN_TOKENS_FOR_SZN ≤ card.tokenCount ∧
      MIN_TOKENS_FOR_SZN ≤ card.tokens.length := by
  intro card hmem
  simp only [sznCards] at hmem
  rw [mem_stableSort] at hmem
  rcases List.mem_append.mp hmem with hm | hn
  · obtain ⟨card0, hc0, rfl⟩ := List.mem_map.mp hm
    obtain ⟨hlen0, hcnt0⟩ := mem_keywordCards_two_le cats liveAlphas card0 hc0
    cases hlk : lookupA aiEnrichments card0.key with
    | none => simpa [hlk] using ⟨hcnt0, hlen0⟩
    | some extra =>
      by_cases hex : extra = []
      · simpa [hlk, hex] using ⟨hcnt0, hlen0⟩
      · obtain ⟨hc1, hc2⟩ :=
          buildSznCard_counts card0.key card0.label (card0.tokens ++ extra) "mixed"
        have hge : MIN_TOKENS_FOR_SZN ≤ (card0.tokens ++ extra).length := by
          rw [List.length_append]
          omega
        simp only [hlk, hex, if_neg hex]
        exact ⟨by simpa [hc1] using hge, by simpa [hc2] using hge⟩
  · unfold novelCards at hn
    obtain ⟨g, hgmem, rfl⟩ := List.mem_map.mp hn
    have hglen : MIN_TOKENS_FOR_SZN ≤ g.tokens.length := by
      have := (List.mem_filter.mp hgmem).2
      simpa using this
    obtain ⟨hc1, hc2⟩ := buildSznCard_counts g.key g.label g.tokens "ai"
    exact ⟨hc1 ▸ hglen, hc2 ▸ hglen⟩

/-- A one-category table and two matching live tokens. -/
def exC9cats : CategoryTable :=
  [("cats", { label := "Cats", priority := 1, keywords := ["cat"] })]

def exC9tok1 : AlphaRec := { address := "c1", symbol := "CAT1", name := "cat one" }

def exC9tok2 : AlphaRec := { address := "c2", symbol := "CAT2", name := "cat two" }

def exC9card : SznCard := buildSznCard "cats" "Cats" [exC9tok1, exC9tok2] "keyword"

/-- C9 witness: the minimum-membership theorem applied to the concrete
card produced by two cat tokens. -/
theorem sznCards_min_two_members_witness :
    MIN_TOKENS_FOR_SZN ≤ exC9card.tokenCount ∧
    MIN_TOKENS_FOR_SZN ≤ exC9card.tokens.length :=
  sznCards_min_two_members exC9cats [exC9tok1, exC9tok2] [] [] exC9card
    (by
      have h : sznCards exC9cats [exC9tok1, exC9tok2] [] [] = [exC9card] := rfl
      rw [h]
      exact List.mem_singleton.mpr rfl)

/-- C10: when two raw results share a candidate key, the merge keeps the
first-encountered result's formatted market data and only unions the
signalSources — while the gateway's alpha deduplication replaces the
stored record when the later duplicate has higher volume. -/
theorem merge_first_encounter_wins (now : ℚ) (alphaSymbol : String)
    (r1 r2 : RawResult) (hk : mergeKey r2 = mergeKey r1)
    (h1 : mergeSkips alphaSymbol r1 = false)
    (h2 : mergeSkips alphaSymbol r2 = false) :
    mergeDedupe now alphaSymbol [r1, r2] =
      [(mergeKey r1,
        { formatBeta now r1.pair r1.sources with
          signalSources := jsSetDedup (r1.sources ++ r2.sources) })] ∧
    (∀ a1 a2 : AlphaRec, a1.address = a2.address → a2.address ≠ "" →
      jsOr a2.volume24h 0 > jsOr a1.volume24h 0 →
      deduplicateAlphas [a1, a2] = [a2]) := by
  constructor
  · simp [mergeDedupe, mergeStep, unionStep, h1, h2, hk, lookupA, updateA, formatBeta]
  · intro a1 a2 haddr hne hvol
    have h1ne : ¬ (a1.address = "") := by
      rw [haddr]
      exact hne
    simp [deduplicateAlphas, lookupA, updateA, h1ne, hne, haddr, hvol]

def exC10p1 : DexPair := {
  chainId := "solana"
  pairAddress := "pa1"
  baseTokenSymbol := "FOO"
  baseTokenAddress := "a1"
  priceUsd := "1"
  priceChangeH24 := 10
  volumeH24 := 100
  marketCap := 5000
  liquidityUsd := 6000 }

def exC10p2 : DexPair := {
  chainId := "solana"
  pairAddress := "pa2"
  baseTokenSymbol := "FOO"
  baseTokenAddress := "a1"
  priceUsd := "2"
  priceChangeH24 := 20
  volumeH24 := 999999
  marketCap := 7000
  liquidityUsd := 9000 }

def exC10a1 : AlphaRec := { address := "dup", symbol := "DUP", volume24h := 100 }

def exC10a2 : AlphaRec := { address := "dup", symbol := "DUP", volume24h := 999 }

/-- C10 witness: two same-address raw results (the second with far higher
volume) merged first-wins with unioned sources; the gateway deduplicator
picks the higher-volume duplicate instead. -/
theorem merge_first_encounter_wins_witness :
    mergeDedupe 0 "ALPHA" [⟨exC10p1, ["keyword"]⟩, ⟨exC10p2, ["lp_pair"]⟩] =
      [(mergeKey ⟨exC10p1, ["keyword"]⟩,
        { formatBeta 0 exC10p1 ["keyword"] with
          signalSources := jsSetDedup (["keyword"] ++ ["lp_pair"]) })] ∧
    deduplicateAlphas [exC10a1, exC10a2] = [exC10a2] :=
  ⟨(merge_first_encounter_wins 0 "ALPHA" ⟨exC10p1, ["keyword"]⟩
      ⟨exC10p2, ["lp_pair"]⟩ (by decide) (by decide) (by decide)).1,
   (merge_first_encounter_wins 0 "ALPHA" ⟨exC10p1, ["keyword"]⟩
      ⟨exC10p2, ["lp_pair"]⟩ (by decide) (by decide) (by decide)).2
     exC10a1 exC10a2 (by decide) (by decide) (by decide)⟩


/-! ### Merge idempotence (C3) -/

theorem lookupA_mem {β : Type} (m : List (String × β)) (k : String) (b : β)
    (h : lookupA m k = some b) : (k, b) ∈ m := by
  induction m with
  | nil => simp [lookupA] at h
  | cons hd t ih =>
    obtain ⟨k0, v0⟩ := hd
    by_cases h0 : k0 = k
    · subst h0
      simp only [lookupA, if_true, eq_self_iff_true] at h
      have hb : v0 = b := by
        simpa using h
      subst hb
      exact List.mem_cons_self _ _
    · simp only [lookupA, if_neg h0] at h
      exact List.mem_cons_of_mem _ (ih h)

theorem mem_updateA {β : Type} (m : List (String × β)) (k : String)
    (f : β → β) (kb : String × β) (h : kb ∈ updateA m k f) :
    kb ∈ m ∨ ∃ v, (k, v) ∈ m ∧ kb = (k, f v) := by
  induction m with
  | nil => simp [updateA] at h
  | cons hd t ih =>
    obtain ⟨k0, v0⟩ := hd
    by_cases h0 : k0 = k
    · subst h0
      simp only [updateA, if_pos rfl] at h
      rcases List.mem_cons.mp h with rfl | hmem
      · exact Or.inr ⟨v0, List.mem_cons_self _ _, rfl⟩
      · exact Or.inl (List.mem_cons_of_mem _ hmem)
    · simp only [updateA, if_neg h0] at h
      rcases List.mem_cons.mp h with rfl | hmem
      · exact Or.inl (List.mem_cons_self _ _)
      · rcases ih hmem with h1 | ⟨v, hv, rfl⟩
        · exact Or.inl (List.mem_cons_of_mem _ h1)
        · exact Or.inr ⟨v, List.mem_cons_of_mem _ hv, rfl⟩

/-- Invariant of the merge map: every stored signalSources list is
duplicate-free. -/
def goodMap (m : List (String × Beta)) : Prop :=
  ∀ kb ∈ m, (Prod.snd kb).signalSources.Nodup

/-- A raw result already absorbed by a merge map: it is skipped, or its
key is present with all its source tags. -/
def mergeAbsorbed (alphaSymbol : String) (m : List (String × Beta))
    (r : RawResult) : Prop :=
  mergeSkips alphaSymbol r = true ∨
  ∃ b, lookupA m (mergeKey r) = some b ∧ ∀ s ∈ r.sources, s ∈ b.signalSources

theorem mergeStep_skip (now : ℚ) (alphaSymbol : String)
    (m : List (String × Beta)) (r : RawResult)
    (h : mergeSkips alphaSymbol r = true) :
    mergeStep now alphaSymbol m r = m := by
  simp [mergeStep, h]

theorem mergeStep_hit (now : ℚ) (alphaSymbol : String)
    (m : List (String × Beta)) (r : RawResult) (b : Beta)
    (hs : mergeSkips alphaSymbol r = false)
    (hlk : lookupA m (mergeKey r) = some b) :
    mergeStep now alphaSymbol m r =
      updateA m (mergeKey r) (unionStep r.sources) := by
  simp [mergeStep, unionStep, hs, hlk]

theorem mergeStep_new (now : ℚ) (alphaSymbol : String)
    (m : List (String × Beta)) (r : RawResult)
    (hs : mergeSkips alphaSymbol r = false)
    (hlk : lookupA m (mergeKey r) = none) :
    mergeStep now alphaSymbol m r =
      m ++ [(mergeKey r, formatBeta now r.pair r.sources)] := by
  simp [mergeStep, hs, hlk]

theorem mergeStep_goodMap (now : ℚ) (alphaSymbol : String)
    (m : List (String × Beta)) (r : RawResult) (hg : goodMap m)
    (hr : r.sources.Nodup) : goodMap (mergeStep now alphaSymbol m r) := by
  cases hs : mergeSkips alphaSymbol r with
  | true => rw [mergeStep_skip now alphaSymbol m r hs]; exact hg
  | false =>
    cases hlk : lookupA m (mergeKey r) with
    | some b =>
      rw [mergeStep_hit now alphaSymbol m r b hs hlk]
      intro kb hkb
      rcases mem_updateA m (mergeKey r) _ kb hkb with h1 | ⟨v, _, rfl⟩
      · exact hg kb h1
      · exact jsSetDedup_nodup _
    | none =>
      rw [mergeStep_new now alphaSymbol m r hs hlk]
      intro kb hkb
      rcases List.mem_append.mp hkb with h1 | h2
      · exact hg kb h1
      · rcases List.mem_singleton.mp h2 with rfl
        simpa [formatBeta] using hr

theorem mergeStep_lookup_mono (now : ℚ) (alphaSymbol : String)
    (m : List (String × Beta)) (r : RawResult) (k : String) (b : Beta)
    (h : lookupA m k = some b) :
    ∃ b2, lookupA (mergeStep now alphaSymbol m r) k = some b2 ∧
      ∀ s ∈ b.signalSources, s ∈ b2.signalSources := by
  cases hs : mergeSkips alphaSymbol r with
  | true =>
    rw [mergeStep_skip now alphaSymbol m r hs]
    exact ⟨b, h, fun s hsm => hsm⟩
  | false =>
    cases hlk : lookupA m (mergeKey r) with
    | some b0 =>
      rw [mergeStep_hit now alphaSymbol m r b0 hs hlk]
      by_cases hkk : mergeKey r = k
      · have hb : b0 = b := by
          rw [hkk, h] at hlk
          exact (Option.some.inj hlk).symm
        subst hb
        subst hkk
        refine ⟨unionStep r.sources b0, ?_, ?_⟩
        · rw [lookupA_updateA, if_pos rfl, h]
          rfl
        · intro s hsm
          simp only [unionStep, mem_jsSetDedup, List.mem_append]
          exact Or.inl hsm
      · refine ⟨b, ?_, fun s hsm => hsm⟩
        rw [lookupA_updateA, if_neg hkk]
        exact h
    | none =>
      rw [mergeStep_new now alphaSymbol m r hs hlk]
      by_cases hkk : mergeKey r = k
      · subst hkk
        rw [h] at hlk
        exact absurd hlk (by simp)
      · refine ⟨b, ?_, fun s hsm => hsm⟩
        rw [lookupA_append_of_ne _ _ _ _ hkk]
        exact h

theorem mergeStep_absorbs (now : ℚ) (alphaSymbol : String)
    (m : List (String × Beta)) (r : RawResult) :
    mergeAbsorbed alphaSymbol (mergeStep now alphaSymbol m r) r := by
  cases hs : mergeSkips alphaSymbol r with
  | true => exact Or.inl hs
  | false =>
    refine Or.inr ?_
    cases hlk : lookupA m (mergeKey r) with
    | some b =>
      rw [mergeStep_hit now alphaSymbol m r b hs hlk]
      refine ⟨unionStep r.sources b, ?_, ?_⟩
      · rw [lookupA_updateA, if_pos rfl, hlk]
        rfl
      · intro s hsm
        simp only [unionStep, mem_jsSetDedup, List.mem_append]
        exact Or.inr hsm
    | none =>
      rw [mergeStep_new now alphaSymbol m r hs hlk]
      refine ⟨formatBeta now r.pair r.sources, ?_, ?_⟩
      · exact lookupA_append_right m (mergeKey r) _ hlk
      · intro s hsm
        simpa [formatBeta] using hsm

theorem mergeAbsorbed_mono (now : ℚ) (alphaSymbol : String)
    (m : List (String × Beta)) (r r2 : RawResult)
    (h : mergeAbsorbed alphaSymbol m r) :
    mergeAbsorbed alphaSymbol (mergeStep now alphaSymbol m r2) r := by
  rcases h with hs | ⟨b, hlk, hsub⟩
  · exact Or.inl hs
  · rcases mergeStep_lookup_mono now alphaSymbol m r2 (mergeKey r) b hlk with
      ⟨b2, hlk2, hsub2⟩
    exact Or.inr ⟨b2, hlk2, fun s hsm => hsub2 s (hsub s hsm)⟩

theorem mergeFold_absorbed_mono (now : ℚ) (alphaSymbol : String)
    (L : List RawResult) :
    ∀ (m : List (String × Beta)) (r : RawResult),
      mergeAbsorbed alphaSymbol m r →
      mergeAbsorbed alphaSymbol (L.foldl (mergeStep now alphaSymbol) m) r := by
  induction L with
  | nil => intro m r h; exact h
  | cons x t ih =>
    intro m r h
    exact ih _ r (mergeAbsorbed_mono now alphaSymbol m r x h)

theorem mergeFold_goodMap (now : ℚ) (alphaSymbol : String)
    (L : List RawResult) :
    ∀ (m : List (String × Beta)), goodMap m → (∀ r ∈ L, r.sources.Nodup) →
      goodMap (L.foldl (mergeStep now alphaSymbol) m) := by
  induction L with
  | nil => intro m hg _; exact hg
  | cons x t ih =>
    intro m hg hnd
    exact ih _ (mergeStep_goodMap now alphaSymbol m x hg
        (hnd x (List.mem_cons_self x t)))
      (fun r hr => hnd r (List.mem_cons_of_mem x hr))

theorem mergeFold_all_absorbed (now : ℚ) (alphaSymbol : String)
    (L : List RawResult) :
    ∀ (m : List (String × Beta)) (r : RawResult), r ∈ L →
      mergeAbsorbed alphaSymbol (L.foldl (mergeStep now alphaSymbol) m) r := by
  induction L with
  | nil => intro m r h; simp at h
  | cons x t ih =>
    intro m r hr
    rcases List.mem_cons.mp hr with rfl | hr'
    · exact mergeFold_absorbed_mono now alphaSymbol t _ r
        (mergeStep_absorbs now alphaSymbol m r)
    · exact ih _ r hr'

theorem mergeStep_of_absorbed (now : ℚ) (alphaSymbol : String)
    (m : List (String × Beta)) (r : RawResult) (hg : goodMap m)
    (h : mergeAbsorbed alphaSymbol m r) :
    mergeStep now alphaSymbol m r = m := by
  rcases h with hs | ⟨b, hlk, hsub⟩
  · exact mergeStep_skip now alphaSymbol m r hs
  · cases hs : mergeSkips alphaSymbol r with
    | true => exact mergeStep_skip now alphaSymbol m r hs
    | false =>
      rw [mergeStep_hit now alphaSymbol m r b hs hlk]
      refine updateA_id m (mergeKey r) _ b hlk ?_
      have hnd : b.signalSources.Nodup := hg (mergeKey r, b) (lookupA_mem m _ b hlk)
      have hded : jsSetDedup (b.signalSources ++ r.sources) = b.signalSources :=
        jsSetDedup_append_subset _ _ hnd hsub
      simp only [unionStep, hded]

theorem mergeFold_of_absorbed (now : ℚ) (alphaSymbol : String)
    (L : List RawResult) :
    ∀ (m : List (String × Beta)), goodMap m →
      (∀ r ∈ L, mergeAbsorbed alphaSymbol m r) →
      L.foldl (mergeStep now alphaSymbol) m = m := by
  induction L with
  | nil => intro m _ _; rfl
  | cons x t ih =>
    intro m hg habs
    have hx : mergeStep now alphaSymbol m x = m :=
      mergeStep_of_absorbed now alphaSymbol m x hg (habs x (List.mem_cons_self x t))
    simp only [List.foldl_cons, hx]
    exact ih m hg (fun r hr => habs r (List.mem_cons_of_mem x hr))

/-- C3: the beta merge is idempotent — at a fixed evaluation time,
merging a raw detector result list concatenated with itself yields
exactly the same output as merging it once (same deduplication, unioned
signalSources, sort order and top-30 truncation); raw detector results
carry duplicate-free source-tag lists. -/
theorem mergeAndScore_idempotent (now : ℚ) (alphaSymbol : String)
    (alphaMcap : ℚ) (rawResults : List RawResult)
    (h : ∀ r ∈ rawResults, r.sources.Nodup) :
    mergeAndScore now (rawResults ++ rawResults) alphaSymbol alphaMcap =
      mergeAndScore now rawResults alphaSymbol alphaMcap := by
  have hdedupe : mergeDedupe now alphaSymbol (rawResults ++ rawResults) =
      mergeDedupe now alphaSymbol rawResults := by
    unfold mergeDedupe
    rw [List.foldl_append]
    refine mergeFold_of_absorbed now alphaSymbol rawResults _ ?_ ?_
    · exact mergeFold_goodMap now alphaSymbol rawResults []
        (by intro kb hkb; simp at hkb) h
    · intro r hr
      exact mergeFold_all_absorbed now alphaSymbol rawResults [] r hr
  unfold mergeAndScore
  rw [hdedupe]

def exC3p1 : DexPair := {
  chainId := "solana"
  pairAddress := "pb1"
  baseTokenSymbol := "FOO"
  baseTokenAddress := "b1"
  priceUsd := "1"
  priceChangeH24 := 10
  volumeH24 := 100
  marketCap := 5000
  liquidityUsd := 6000 }

def exC3p2 : DexPair := {
  chainId := "solana"
  pairAddress := "pb2"
  baseTokenSymbol := "BAR"
  baseTokenAddress := "b2"
  priceUsd := "2"
  priceChangeH24 := 20
  volumeH24 := 999
  marketCap := 7000
  liquidityUsd := 9000 }

def exC3raw : List RawResult :=
  [⟨exC3p1, ["keyword"]⟩, ⟨exC3p2, ["lp_pair"]⟩, ⟨exC3p1, ["morphology"]⟩]

/-- C3 witness: idempotence instantiated on a concrete three-result run
with duplicate-free source tags. -/
theorem mergeAndScore_idempotent_witness :
    mergeAndScore 0 (exC3raw ++ exC3raw) "ALPHA" 100000 =
      mergeAndScore 0 exC3raw "ALPHA" 100000 :=
  mergeAndScore_idempotent 0 "ALPHA" 100000 exC3raw (by decide)


/-! ### Parent resolution scoring (C8) -/

theorem jsOr_zero (x : ℚ) : jsOr x 0 = x := by
  unfold jsOr
  split_ifs with h
  · exact h.symm
  · rfl

/-- Characterization of findParent's fold: either no candidate beats the
incoming best (and the state is unchanged), or the result is the
first-seen candidate attaining the strictly highest qualifying score. -/
theorem parentFold_spec (symbol : String) (tiers : QueryTiers)
    (items : List (String × DexPair)) :
    ∀ st : Option DexPair × ℚ,
      (items.foldl (parentStep symbol tiers) st = st ∧
        ∀ it ∈ items, parentQual symbol tiers it →
          parentScore symbol tiers it ≤ st.2) ∨
      (∃ pre it post, items = pre ++ it :: post ∧
        parentQual symbol tiers it ∧
        items.foldl (parentStep symbol tiers) st =
          (some it.2, parentScore symbol tiers it) ∧
        parentScore symbol tiers it > st.2 ∧
        (∀ j ∈ pre, parentQual symbol tiers j →
          parentScore symbol tiers j < parentScore symbol tiers it) ∧
        (∀ j ∈ post, parentQual symbol tiers j →
          parentScore symbol tiers j ≤ parentScore symbol tiers it)) := by
  induction items with
  | nil =>
    intro st
    exact Or.inl ⟨rfl, by simp⟩
  | cons x rest ih =>
    intro st
    by_cases hx : parentQual symbol tiers x ∧ parentScore symbol tiers x > st.2
    · have hstep : parentStep symbol tiers st x =
          (some x.2, parentScore symbol tiers x) := by
        unfold parentStep
        rw [if_pos hx]
      rcases ih (some x.2, parentScore symbol tiers x) with ⟨heq, hall⟩ |
          ⟨pre, it, post, heq, hqual, hfold, hgt, hpre, hpost⟩
      · refine Or.inr ⟨[], x, rest, rfl, hx.1, ?_, hx.2, by simp, ?_⟩
        · simp only [List.foldl_cons, hstep, heq]
        · intro j hj hqj
          exact hall j hj hqj
      · refine Or.inr ⟨x :: pre, it, post, by rw [heq]; rfl, hqual, ?_, ?_, ?_, hpost⟩
        · simp only [List.foldl_cons, hstep, hfold]
        · linarith [hx.2, hgt]
        · intro j hj hqj
          rcases List.mem_cons.mp hj with rfl | hj'
          · calc parentScore symbol tiers j ≤ parentScore symbol tiers j := le_refl _
              _ < parentScore symbol tiers it := by linarith [hgt]
          · exact hpre j hj' hqj
    · have hstep : parentStep symbol tiers st x = st := by
        unfold parentStep
        rw [if_neg hx]
      rcases ih st with ⟨heq, hall⟩ |
          ⟨pre, it, post, heq, hqual, hfold, hgt, hpre, hpost⟩
      · refine Or.inl ⟨?_, ?_⟩
        · simp only [List.foldl_cons, hstep, heq]
        · intro j hj hqj
          rcases List.mem_cons.mp hj with rfl | hj'
          · by_contra hlt
            exact hx ⟨hqj, lt_of_not_le hlt⟩
          · exact hall j hj' hqj
      · refine Or.inr ⟨x :: pre, it, post, by rw [heq]; rfl, hqual, ?_, hgt, ?_, hpost⟩
        · simp only [List.foldl_cons, hstep, hfold]
        · intro j hj hqj
          rcases List.mem_cons.mp hj with rfl | hj'
          · by_contra hlt
            push_neg at hlt
            exact hx ⟨hqj, by linarith [hgt]⟩
          · exact hpre j hj' hqj

/-- C8: when findParent returns a parent, the winning pair passed the
candidate filter (mcap at least 50% of the alpha's, minimum liquidity,
not the alpha itself); its base similarity reached the tier's minimum
(0.30 with a description/name boost, 0.65 for symbol-derived queries);
the final score is base similarity plus tier boost; and the winner is
the first-seen candidate with the strictly highest qualifying score. -/
theorem findParent_scoring_spec (symbol alphaAddress : String)
    (alphaMcap : ℚ) (tiers : QueryTiers)
    (searches : List (String × List DexPair)) (p : DexPair) (s : ℚ)
    (h : findBestParent symbol alphaAddress alphaMcap tiers searches = (some p, s)) :
    (p.chainId = "solana" ∧
      jsOr p.marketCap p.fdv ≥ jsOr alphaMcap 0 / 2 ∧
      p.liquidityUsd > 5000 ∧
      p.baseTokenAddress ≠ alphaAddress) ∧
    (∃ q pre post,
      consideredItems symbol alphaAddress alphaMcap searches =
        pre ++ (q, p) :: post ∧
      parentBaseSim symbol q p ≥ parentMinBase tiers q ∧
      (getBoost tiers q > 0 → parentBaseSim symbol q p ≥ 3/10) ∧
      (getBoost tiers q = 0 → parentBaseSim symbol q p ≥ 13/20) ∧
      s = parentBaseSim symbol q p + getBoost tiers q ∧
      (∀ j ∈ pre, parentQual symbol tiers j → parentScore symbol tiers j < s) ∧
      (∀ j ∈ post, parentQual symbol tiers j → parentScore symbol tiers j ≤ s)) := by
  unfold findBestParent at h
  rcases parentFold_spec symbol tiers
      (consideredItems symbol alphaAddress alphaMcap searches) (none, 0) with
    ⟨heq, _⟩ | ⟨pre, it, post, heq, hqual, hfold, hgt, hpre, hpost⟩
  · rw [heq] at h
    exact absurd h (by simp)
  · rw [hfold] at h
    have hp : it.2 = p := by
      have := congrArg Prod.fst h
      simpa using this
  
    have hs : parentScore symbol tiers it = s := by
      have := congrArg Prod.snd h
      simpa using this
    have hmem : it ∈ consideredItems symbol alphaAddress alphaMcap searches := by
      rw [heq]
      exact List.mem_append.mpr (Or.inr (List.mem_cons_self _ _))
    have hcons : parentConsider symbol alphaAddress alphaMcap it.2 = true := by
      unfold consideredItems at hmem
      obtain ⟨qs, _, hmem2⟩ := List.mem_flatMap.mp hmem
      obtain ⟨p0, hp0, heqit⟩ := List.mem_map.mp hmem2
      have : p0 = it.2 := by
        rw [← heqit]
      rw [← this]
      exact (List.mem_filter.mp hp0).2
    rw [hp] at hcons
    simp only [parentConsider, Bool.and_eq_true, decide_eq_true_eq] at hcons
    obtain ⟨⟨⟨⟨hchain, hmcap⟩, hliq⟩, haddr⟩, _⟩ := hcons
    refine ⟨⟨hchain, ?_, hliq, haddr⟩, ?_⟩
    · rw [jsOr_zero] at hmcap
      have : jsOr alphaMcap 0 * (1/2) = jsOr alphaMcap 0 / 2 := by ring
      linarith [hmcap]
    · have hit : it = (it.1, p) := by
        rw [← hp]
      refine ⟨it.1, pre, post, ?_, ?_, ?_, ?_, ?_, ?_, ?_⟩
      · rw [← hit]
        exact heq
      · have := hqual
        unfold parentQual at this
        rw [← hp]
        exact this
      · intro hb
        have := hqual
        unfold parentQual parentMinBase at this
        rw [if_pos hb] at this
        rw [← hp]
        exact this
      · intro hb
        have := hqual
        unfold parentQual parentMinBase at this
        rw [hb] at this
        simp only [gt_iff_lt, lt_self_iff_false, if_false] at this
        rw [← hp]
        exact this
      · rw [← hs]
        unfold parentScore
        rw [hp]
      · intro j hj hqj
        rw [← hs]
        exact hpre j hj hqj
      · intro j hj hqj
        rw [← hs]
        exact hpost j hj hqj


/-- A concrete parent candidate: $PIPPIN found via the description-ticker
query "PIPPIN" for alpha DIPPIN. -/
def exC8pair : DexPair := {
  chainId := "solana"
  pairAddress := "pp"
  baseTokenSymbol := "PIPPIN"
  baseTokenName := "Pippin"
  baseTokenAddress := "addrP"
  marketCap := 1000000
  liquidityUsd := 10000 }

def exC8tiers : QueryTiers := { descTicker := ["PIPPIN"] }

/-- C8 witness: the scoring specification applied to a concrete search
run that finds $PIPPIN with base similarity 1.0 and boost 0.40. -/
theorem findParent_scoring_spec_witness :
    (exC8pair.chainId = "solana" ∧
      jsOr exC8pair.marketCap exC8pair.fdv ≥ jsOr 100000 0 / 2 ∧
      exC8pair.liquidityUsd > 5000 ∧
      exC8pair.baseTokenAddress ≠ "addrD") ∧
    (∃ q pre post,
      consideredItems "DIPPIN" "addrD" 100000 [("PIPPIN", [exC8pair])] =
        pre ++ (q, exC8pair) :: post ∧
      parentBaseSim "DIPPIN" q exC8pair ≥ parentMinBase exC8tiers q ∧
      (getBoost exC8tiers q > 0 → parentBaseSim "DIPPIN" q exC8pair ≥ 3/10) ∧
      (getBoost exC8tiers q = 0 → parentBaseSim "DIPPIN" q exC8pair ≥ 13/20) ∧
      (1 + 2/5 : ℚ) = parentBaseSim "DIPPIN" q exC8pair + getBoost exC8tiers q ∧
      (∀ j ∈ pre, parentQual "DIPPIN" exC8tiers j →
        parentScore "DIPPIN" exC8tiers j < (1 + 2/5 : ℚ)) ∧
      (∀ j ∈ post, parentQual "DIPPIN" exC8tiers j →
        parentScore "DIPPIN" exC8tiers j ≤ (1 + 2/5 : ℚ))) := by
  have hup : jsToUpper "PIPPIN" = "PIPPIN" := by decide
  have hne1 : "addrP" ≠ "addrD" := by decide
  have hne2 : ¬ ("PIPPIN" = "DIPPIN") := by decide
  have hbs : parentBaseSim "DIPPIN" "PIPPIN" exC8pair = 1 := by
    simp [parentBaseSim, exC8pair, hup]
  have hboost : getBoost exC8tiers "PIPPIN" = 2/5 := by
    simp [getBoost, exC8tiers]
  have hcons : parentConsider "DIPPIN" "addrD" 100000 exC8pair = true := by
    simp only [parentConsider, exC8pair, Bool.and_eq_true, decide_eq_true_eq]
    refine ⟨⟨⟨⟨trivial, ?_⟩, by norm_num⟩, hne1⟩, ?_⟩
    · norm_num [jsOr]
    · rw [hup]
      exact hne2
  have hitems : consideredItems "DIPPIN" "addrD" 100000 [("PIPPIN", [exC8pair])] =
      [("PIPPIN", exC8pair)] := by
    simp [consideredItems, hcons]
  have hq : parentQual "DIPPIN" exC8tiers ("PIPPIN", exC8pair) := by
    show parentBaseSim "DIPPIN" "PIPPIN" exC8pair ≥ parentMinBase exC8tiers "PIPPIN"
    rw [hbs]
    unfold parentMinBase
    rw [hboost]
    norm_num
  have hsc : parentScore "DIPPIN" exC8tiers ("PIPPIN", exC8pair) = 1 + 2/5 := by
    show parentBaseSim "DIPPIN" "PIPPIN" exC8pair + getBoost exC8tiers "PIPPIN" = 1 + 2/5
    rw [hbs, hboost]
  have hfold : findBestParent "DIPPIN" "addrD" 100000 exC8tiers
      [("PIPPIN", [exC8pair])] = (some exC8pair, 1 + 2/5) := by
    unfold findBestParent
    rw [hitems]
    simp only [List.foldl_cons, List.foldl_nil, parentStep]
    rw [if_pos ⟨hq, by rw [hsc]; norm_num⟩, hsc]
  exact findParent_scoring_spec "DIPPIN" "addrD" 100000 exC8tiers
    [("PIPPIN", [exC8pair])] exC8pair (1 + 2/5) hfold

end BetaPlays
